import Mathlib

set_option maxRecDepth 40000

/-!
Verification of the reminder parsing / recurrence / due-processing engine
of a chat-bot backend (TypeScript sources: `reminder-utils` and `scheduler`).

The TypeScript code manipulates JavaScript `Date` values through their UTC
calendar fields (the deployment target runs with a UTC clock, so
`getMinutes`/`setMonth` etc. act on the UTC calendar view of the timestamp).
We embed an instant as its calendar view: a proleptic-Gregorian civil date
plus a millisecond-of-day.  A JS `Date` timestamp is in order-preserving
bijection with valid `DateTime` values, so `Date` comparison is embedded by
comparing the linearisation `DateTime.toLin` below.
-/

/-- Calendar view of a JS `Date` (UTC): year, month (1–12), day of month,
and milliseconds elapsed since local midnight. -/
structure DateTime where
  year : Int
  month : Nat
  day : Nat
  msOfDay : Nat
deriving DecidableEq, Repr

/-- Gregorian leap-year rule, as implemented by JS `Date`. -/
def isLeap (y : Int) : Bool :=
  (y % 4 == 0 && y % 100 != 0) || y % 400 == 0

/-- Number of days in month `m` (1–12) of year `y`. -/
def daysInMonth (y : Int) (m : Nat) : Nat :=
  match m with
  | 1 => 31
  | 2 => if isLeap y then 29 else 28
  | 3 => 31
  | 4 => 30
  | 5 => 31
  | 6 => 30
  | 7 => 31
  | 8 => 31
  | 9 => 30
  | 10 => 31
  | 11 => 30
  | 12 => 31
  | _ => 31

/-- A `DateTime` that is the calendar view of an actual instant. -/
def ValidDT (d : DateTime) : Prop :=
  1 ≤ d.month ∧ d.month ≤ 12 ∧ 1 ≤ d.day ∧ d.day ≤ daysInMonth d.year d.month ∧
    d.msOfDay < 86400000

instance (d : DateTime) : Decidable (ValidDT d) := by
  unfold ValidDT; infer_instance

/-- Linearisation of the calendar view.  For valid `DateTime`s it is strictly
order-isomorphic to the underlying JS timestamp (months are padded to 31 days,
years to 372 days, so the value is not the timestamp itself; only comparisons
of it are used, and those agree with `Date` comparisons). -/
def DateTime.toLin (d : DateTime) : Int :=
  (d.year * 372 + ((d.month : Int) - 1) * 31 + ((d.day : Int) - 1)) * 86400000
    + (d.msOfDay : Int)

/-- Successor day of a civil date (time of day untouched). -/
def nextDay (d : DateTime) : DateTime :=
  if d.day < daysInMonth d.year d.month then
    { d with day := d.day + 1 }
  else if d.month < 12 then
    { d with month := d.month + 1, day := 1 }
  else
    { year := d.year + 1, month := 1, day := 1, msOfDay := d.msOfDay }

/-- Add `n` calendar days, the effect of JS `setDate(getDate() + n)` on the
calendar view of a valid instant. -/
def addDays (d : DateTime) : Nat → DateTime
  | 0 => d
  | n + 1 => addDays (nextDay d) n

/-- Add `k` milliseconds, the effect of JS `setMinutes`/`setHours` increments
on the calendar view of a valid instant: the new time of day plus a carry of
whole days. -/
def addMs (d : DateTime) (k : Nat) : DateTime :=
  addDays { d with msOfDay := (d.msOfDay + k) % 86400000 }
    ((d.msOfDay + k) / 86400000)

/-- Add `v` calendar months, the effect of JS `setMonth(getMonth() + v)`.
JS keeps the day-of-month and lets `MakeDay` normalise: the result is the
first day of the target month (the month index `(month-1)+v` folded into the
year) advanced by `day - 1` days.  When the source day does not exist in the
target month this overflows into the following month — it does NOT clamp to
the target month's last day. -/
def monthAnchor (d : DateTime) (v : Nat) : DateTime :=
  { year := d.year + (((d.month - 1) + v) / 12 : Nat),
    month := ((d.month - 1) + v) % 12 + 1,
    day := 1, msOfDay := d.msOfDay }

def addMonths (d : DateTime) (v : Nat) : DateTime :=
  addDays (monthAnchor d v) (d.day - 1)

/-- Units of the recurrence pattern (`RecurrencePattern['unit']`). -/
inductive TimeUnit where
  | minutes
  | hours
  | days
  | weeks
  | months
deriving DecidableEq, Repr

/-- `RecurrencePattern` from `types.ts`: `{ type: 'interval', value, unit }`.
The parser always sets `type := "interval"`. -/
structure RecurrencePattern where
  type : String
  value : Nat
  unit : TimeUnit
deriving DecidableEq, Repr

/-- `calculateNextOccurrence(lastDate, pattern, timezone)`: switches on the
pattern unit and advances the corresponding calendar field.  The `timezone`
parameter is accepted and ignored, exactly as in the source. -/
def calculateNextOccurrence (lastDate : DateTime) (pattern : RecurrencePattern)
    (_timezone : String := "Asia/Tehran") : DateTime :=
  match pattern.unit with
  | .minutes => addMs lastDate (pattern.value * 60000)
  | .hours => addMs lastDate (pattern.value * 3600000)
  | .days => addDays lastDate pattern.value
  | .weeks => addDays lastDate (pattern.value * 7)
  | .months => addMonths lastDate pattern.value

/-!
Embedding of the text-matching layer.  The source uses JS regexes over
JS strings; we embed strings as `List Char` and each regex as a scanning
matcher with the same semantics on the inputs involved (left-to-right scan,
first position that matches wins, greedy quantifiers, ordered alternation).
-/

/-- Model of JS `toLowerCase` on the ASCII range used by the parsers. -/
def lowerChar (c : Char) : Char :=
  if 65 ≤ c.toNat ∧ c.toNat ≤ 90 then Char.ofNat (c.toNat + 32) else c

def lowerList (l : List Char) : List Char := l.map lowerChar

/-- Model of the regex class `\s` (ASCII part). -/
def isWsChar (c : Char) : Bool :=
  c == ' ' || c == '\t' || c == '\n' || c == '\r' || c == '\x0b' || c == '\x0c'

/-- Model of the regex class `\d`. -/
def isDigitChar (c : Char) : Bool := 48 ≤ c.toNat && c.toNat ≤ 57

/-- Model of the regex class `\w` (for `\b` word boundaries). -/
def isWordChar (c : Char) : Bool :=
  (65 ≤ c.toNat && c.toNat ≤ 90) || (97 ≤ c.toNat && c.toNat ≤ 122)
    || isDigitChar c || c == '_'

/-- Model of JS `parseInt` on a nonempty all-digit capture. -/
def digitsToNat (l : List Char) : Nat :=
  l.foldl (fun acc c => acc * 10 + (c.toNat - 48)) 0

/-- Match a literal (given in lowercase) case-insensitively; returns the
remainder of the input after the literal. -/
def matchLit : List Char → List Char → Option (List Char)
  | [], cs => some cs
  | _ :: _, [] => none
  | p :: ps, c :: cs => if lowerChar c == p then matchLit ps cs else none

/-- Match `\s+` (greedy); returns the remainder. -/
def matchWs1 : List Char → Option (List Char)
  | [] => none
  | c :: rest => if isWsChar c then some (rest.dropWhile isWsChar) else none

/-- Match `\d+` (greedy); returns the `parseInt` value of the capture and
the remainder. -/
def matchDigits1 (cs : List Char) : Option (Nat × List Char) :=
  match cs.takeWhile isDigitChar with
  | [] => none
  | ds => some (digitsToNat ds, cs.dropWhile isDigitChar)

/-- Drop one optional trailing `s?` (case-insensitive, greedy). -/
def dropOptS (cs : List Char) : List Char :=
  match cs with
  | c :: rest => if lowerChar c == 's' then rest else cs
  | [] => []

/-- Match the alternation `(minutes?|hours?|days?|weeks?|months?)` in the
source's order.  The captured stem is lowercased, stripped of a trailing `s`
and switched to the plural unit by the source; the switch's `default` branch
is unreachable because the regex only captures the five stems, so the matcher
returns the unit directly. -/
def matchUnitS (cs : List Char) : Option (TimeUnit × List Char) :=
  match matchLit "minute".toList cs with
  | some rest => some (TimeUnit.minutes, dropOptS rest)
  | none =>
    match matchLit "hour".toList cs with
    | some rest => some (TimeUnit.hours, dropOptS rest)
    | none =>
      match matchLit "day".toList cs with
      | some rest => some (TimeUnit.days, dropOptS rest)
      | none =>
        match matchLit "week".toList cs with
        | some rest => some (TimeUnit.weeks, dropOptS rest)
        | none =>
          match matchLit "month".toList cs with
          | some rest => some (TimeUnit.months, dropOptS rest)
          | none => none

/-- Match the alternation `(minute|hour|day|week|month)` in the source's
order (the second grammar has no plural suffix in the regex).  The source's
`switch` normalises the stem to the plural unit; its `default: return null`
branch is unreachable for the same reason as above. -/
def matchUnitNoS (cs : List Char) : Option (TimeUnit × List Char) :=
  match matchLit "minute".toList cs with
  | some rest => some (TimeUnit.minutes, rest)
  | none =>
    match matchLit "hour".toList cs with
    | some rest => some (TimeUnit.hours, rest)
    | none =>
      match matchLit "day".toList cs with
      | some rest => some (TimeUnit.days, rest)
      | none =>
        match matchLit "week".toList cs with
        | some rest => some (TimeUnit.weeks, rest)
        | none =>
          match matchLit "month".toList cs with
          | some rest => some (TimeUnit.months, rest)
          | none => none

/-- Match `every\s+(\d+)\s+(minutes?|hours?|days?|weeks?|months?)` anchored
at the current position. -/
def matchEveryNumAt (cs : List Char) : Option (Nat × TimeUnit × List Char) := do
  let r1 ← matchLit "every".toList cs
  let r2 ← matchWs1 r1
  let (n, r3) ← matchDigits1 r2
  let r4 ← matchWs1 r3
  let (u, r5) ← matchUnitS r4
  some (n, u, r5)

/-- Left-to-right scan for the first grammar. -/
def scanEveryNum : List Char → Option (Nat × TimeUnit)
  | [] => none
  | c :: rest =>
    match matchEveryNumAt (c :: rest) with
    | some (n, u, _) => some (n, u)
    | none => scanEveryNum rest

/-- Match `every\s+(minute|hour|day|week|month)` anchored at the current
position. -/
def matchEverySingularAt (cs : List Char) : Option (TimeUnit × List Char) := do
  let r1 ← matchLit "every".toList cs
  let r2 ← matchWs1 r1
  matchUnitNoS r2

/-- Left-to-right scan for the second grammar. -/
def scanEverySingular : List Char → Option TimeUnit
  | [] => none
  | c :: rest =>
    match matchEverySingularAt (c :: rest) with
    | some (u, _) => some u
    | none => scanEverySingular rest

/-- Word-boundary test for the position before the scanned character. -/
def boundaryOk : Option Char → Bool
  | none => true
  | some c => !isWordChar c

/-- Word-boundary test for the position after a matched word. -/
def boundaryEnd : List Char → Bool
  | [] => true
  | c :: _ => !isWordChar c

/-- Match `\b(daily|hourly|weekly|monthly)\b` anchored at the current
position, given the previous character (for the left boundary). -/
def matchFreqAt (prev : Option Char) (cs : List Char) : Option (TimeUnit × List Char) :=
  if boundaryOk prev then
    match matchLit "daily".toList cs with
    | some rest => if boundaryEnd rest then some (TimeUnit.days, rest) else none
    | none =>
      match matchLit "hourly".toList cs with
      | some rest => if boundaryEnd rest then some (TimeUnit.hours, rest) else none
      | none =>
        match matchLit "weekly".toList cs with
        | some rest => if boundaryEnd rest then some (TimeUnit.weeks, rest) else none
        | none =>
          match matchLit "monthly".toList cs with
          | some rest => if boundaryEnd rest then some (TimeUnit.months, rest) else none
          | none => none
  else none

/-- Left-to-right scan for the third grammar, tracking the previous
character for the left word boundary. -/
def scanFreq (prev : Option Char) : List Char → Option TimeUnit
  | [] => none
  | c :: rest =>
    match matchFreqAt prev (c :: rest) with
    | some (u, _) => some u
    | none => scanFreq (some c) rest

/-- `parseRecurrencePattern(text)` on the character-list view: lowercase the
text, then try the three grammars in the source's precedence order. -/
def parseRecurrencePatternL (text : List Char) : Option RecurrencePattern :=
  let lowerText := lowerList text
  match scanEveryNum lowerText with
  | some (value, unit) => some { type := "interval", value := value, unit := unit }
  | none =>
    match scanEverySingular lowerText with
    | some unit => some { type := "interval", value := 1, unit := unit }
    | none =>
      match scanFreq none lowerText with
      | some unit => some { type := "interval", value := 1, unit := unit }
      | none => none

/-- `parseRecurrencePattern(text)` from `reminder-utils`. -/
def parseRecurrencePattern (text : String) : Option RecurrencePattern :=
  parseRecurrencePatternL text.toList


/-!
Embedding of the reminder store.  The D1 (SQLite) database holding the
`reminders` table is embedded as the list of its rows plus the next
AUTOINCREMENT id.  `scheduled_at` is stored as an ISO-8601 string in the
database and compared lexicographically in SQL, which coincides with
chronological order for that format; we store the `DateTime` and compare via
`toLin`.  Display-only columns (`created_at`, `updated_at`) are not modelled.
The persistence collaborator itself is assumed to acknowledge every write
(`result.success = true`); a statement's `meta.changes` is the number of rows
matched by the UPDATE's WHERE clause.
-/

/-- Row of the `reminders` table (`Reminder` in `types`). -/
structure Reminder where
  id : Nat
  telegram_id : Nat
  task_description : String
  scheduled_at : DateTime
  timezone : String
  is_active : Bool
  is_sent : Bool
  is_recurring : Bool
  recurrence_pattern : Option RecurrencePattern
  parent_reminder_id : Option Nat
  last_occurrence_at : Option DateTime
  max_occurrences : Option Nat
  occurrence_count : Nat
  recurrence_end_date : Option DateTime
deriving DecidableEq, Repr

/-- Database state: the rows and the next AUTOINCREMENT id. -/
structure Store where
  rows : List Reminder
  nextId : Nat
deriving DecidableEq, Repr

/-- SQL `UPDATE reminders SET ... WHERE cond`: apply `f` to every row
satisfying `cond`; also return `meta.changes`. -/
def updateWhere (cond : Reminder → Bool) (f : Reminder → Reminder) (S : Store) :
    Store × Nat :=
  ({ S with rows := S.rows.map fun r => if cond r then f r else r },
    S.rows.countP cond)

/-- `createReminder(db, telegramId, task, scheduledAt, timezone, isRecurring,
pattern, maxOccurrences, endDate)`: INSERT using the schema defaults for the
remaining columns (`is_active TRUE`, `is_sent FALSE`, `parent_reminder_id
NULL`, `occurrence_count 0`, `last_occurrence_at NULL`); returns the
generated id.  `maxOccurrences || null` maps the JS-falsy value 0 to NULL. -/
def createReminder (S : Store) (telegramId : Nat) (task : String)
    (scheduledAt : DateTime) (timezone : String) (isRecurring : Bool)
    (pattern : Option RecurrencePattern) (maxOcc : Option Nat)
    (endDate : Option DateTime) : Store × Nat :=
  let r : Reminder := {
    id := S.nextId, telegram_id := telegramId, task_description := task,
    scheduled_at := scheduledAt, timezone := timezone,
    is_active := true, is_sent := false, is_recurring := isRecurring,
    recurrence_pattern := pattern, parent_reminder_id := none,
    last_occurrence_at := none,
    max_occurrences := match maxOcc with | some 0 => none | x => x,
    occurrence_count := 0, recurrence_end_date := endDate }
  ({ rows := S.rows ++ [r], nextId := S.nextId + 1 }, S.nextId)

/-- WHERE clause of `getDueReminders`:
`is_active = TRUE AND is_sent = FALSE AND scheduled_at <= now`. -/
def dueBefore (now : DateTime) (r : Reminder) : Bool :=
  r.is_active && !r.is_sent && decide (r.scheduled_at.toLin ≤ now.toLin)

/-- `getDueReminders(db)`: the due rows, `ORDER BY scheduled_at ASC`. -/
def getDueReminders (now : DateTime) (S : Store) : List Reminder :=
  List.insertionSort
    (fun a b => a.scheduled_at.toLin ≤ b.scheduled_at.toLin)
    (S.rows.filter (dueBefore now))

/-- `markReminderAsSent(db, reminderId)`:
`UPDATE reminders SET is_sent = TRUE WHERE id = ?`, returning
`success && changes > 0`. -/
def markReminderAsSent (S : Store) (reminderId : Nat) : Store × Bool :=
  let u := updateWhere (fun r => r.id == reminderId)
    (fun r => { r with is_sent := true }) S
  (u.1, u.2 != 0)

/-- `stopRecurringReminder(db, reminderId, telegramId)`:
`UPDATE reminders SET is_active = FALSE
 WHERE (id = ? OR parent_reminder_id = ?) AND telegram_id = ? AND
 is_sent = FALSE`, returning `success && changes > 0`. -/
def stopRecurringReminder (S : Store) (reminderId telegramId : Nat) :
    Store × Bool :=
  let u := updateWhere
    (fun r => (r.id == reminderId || r.parent_reminder_id == some reminderId)
        && r.telegram_id == telegramId && r.is_sent == false)
    (fun r => { r with is_active := false }) S
  (u.1, u.2 != 0)

/-- First guard of `shouldCreateNextOccurrence`: JS truthiness makes the
max-occurrences check apply only when both `max_occurrences` and
`occurrence_count` are non-null and non-zero. -/
def maxReached (r : Reminder) : Bool :=
  match r.max_occurrences with
  | some m => m != 0 && r.occurrence_count != 0 && r.occurrence_count ≥ m
  | none => false

/-- Second guard of `shouldCreateNextOccurrence`: `nextDate > endDate`. -/
def endDateExceeded (r : Reminder) (nextDate : DateTime) : Bool :=
  match r.recurrence_end_date with
  | some e => decide (e.toLin < nextDate.toLin)
  | none => false

/-- `shouldCreateNextOccurrence(db, reminder, nextDate)` (the `db` argument
is unused by the source). -/
def shouldCreateNextOccurrence (r : Reminder) (nextDate : DateTime) : Bool :=
  if maxReached r then false
  else if endDateExceeded r nextDate then false
  else if !r.is_active then false
  else true

/-- Store events, for stating ordering contracts about one processing run.
`sent` is the `markReminderAsSent` UPDATE, `insertSuccessor` the INSERT
performed inside `createNextRecurrence(reminder)` (hence tagged with that
reminder's id), `linkSuccessor` and `updateHead` the two bookkeeping
UPDATEs. -/
inductive StoreEvent where
  | dispatch (id : Nat) (ok : Bool)
  | sent (id : Nat)
  | insertSuccessor (parentId : Nat) (newId : Nat)
  | linkSuccessor (newId : Nat)
  | updateHead (parentId : Nat)
deriving DecidableEq, Repr

/-- `createNextRecurrence(db, reminder)`: guard on `is_recurring` and
`recurrence_pattern`, compute the next date, check the termination bounds,
then INSERT the (non-recurring) successor and run the two bookkeeping
UPDATEs.  The stored pattern is structured in the model, so the source's
catch of a JSON.parse failure cannot fire. -/
def createNextRecurrence (S : Store) (r : Reminder) :
    Store × Option Nat × List StoreEvent :=
  if !r.is_recurring then (S, none, [])
  else
    match r.recurrence_pattern with
    | none => (S, none, [])
    | some pattern =>
      let nextDate := calculateNextOccurrence r.scheduled_at pattern r.timezone
      if !shouldCreateNextOccurrence r nextDate then (S, none, [])
      else
        let c := createReminder S r.telegram_id r.task_description nextDate
          r.timezone false none none none
        let u1 := updateWhere (fun x => x.id == c.2)
          (fun x =>
            { x with
              parent_reminder_id := some r.id,
              occurrence_count := x.occurrence_count + 1,
              last_occurrence_at := some nextDate }) c.1
        let u2 := updateWhere (fun x => x.id == r.id)
          (fun x =>
            { x with
              last_occurrence_at := some nextDate,
              occurrence_count := x.occurrence_count + 1 }) u1.1
        (u2.1, some c.2,
          [.insertSuccessor r.id c.2, .linkSuccessor c.2, .updateHead r.id])

/-- Accumulated result of `processDueReminders`, plus the event trace. -/
structure ProcResult where
  store : Store
  sent : Nat
  failed : Nat
  recurringCreated : Nat
  trace : List StoreEvent
deriving Repr

/-- Body of the per-reminder loop of `processDueReminders`.  The dispatch of
the notification (`sendReminder`, which catches its own exceptions and
returns a boolean) is abstracted as the `dispatch` oracle; on success the row
is marked sent and, for a recurring row with a pattern, the successor is
created; on failure only the `failed` counter moves.  Store operations are
total in the model, so the loop's try/catch around them cannot fire. -/
def processOne (dispatch : Reminder → Bool) (acc : ProcResult) (r : Reminder) :
    ProcResult :=
  if dispatch r then
    let m := markReminderAsSent acc.store r.id
    let acc1 :=
      { acc with
        store := m.1,
        sent := acc.sent + 1,
        trace := acc.trace ++ [.dispatch r.id true, .sent r.id] }
    if r.is_recurring && r.recurrence_pattern.isSome then
      match createNextRecurrence m.1 r with
      | (S2, some _, ev) =>
        { acc1 with
          store := S2,
          recurringCreated := acc1.recurringCreated + 1,
          trace := acc1.trace ++ ev }
      | (S2, none, ev) => { acc1 with store := S2, trace := acc1.trace ++ ev }
    else acc1
  else
    { acc with
      failed := acc.failed + 1,
      trace := acc.trace ++ [.dispatch r.id false] }

/-- `processDueReminders(env)`: fetch the due list once, then process it
sequentially. -/
def processDueReminders (dispatch : Reminder → Bool) (now : DateTime)
    (S : Store) : ProcResult :=
  (getDueReminders now S).foldl (processOne dispatch)
    { store := S, sent := 0, failed := 0, recurringCreated := 0, trace := [] }

/-- Rows have pairwise distinct ids. -/
def distinctIds : List Reminder → Bool
  | [] => true
  | r :: rs => rs.all (fun x => x.id != r.id) && distinctIds rs

/-- Database well-formedness: AUTOINCREMENT ids are below the next id and
pairwise distinct. -/
def wfStore (S : Store) : Bool :=
  S.rows.all (fun r => r.id < S.nextId) && distinctIds S.rows

/-- Number of rows linked to head `h` via `parent_reminder_id`. -/
def countParent (S : Store) (h : Nat) : Nat :=
  S.rows.countP (fun r => r.parent_reminder_id == some h)

/-- Iterate scheduler ticks: each step is one `processDueReminders`
invocation with its own dispatch outcomes and clock reading. -/
def lifetime (steps : List ((Reminder → Bool) × DateTime)) (S : Store) : Store :=
  steps.foldl (fun st p => (processDueReminders p.1 p.2 st).store) S


/-- Concrete fixture row for witnesses: an active, unsent reminder. -/
def sampleReminder (i tg : Nat) (d : DateTime) (rec : Bool)
    (pat : Option RecurrencePattern) : Reminder :=
  { id := i, telegram_id := tg, task_description := "t", scheduled_at := d,
    timezone := "UTC", is_active := true, is_sent := false, is_recurring := rec,
    recurrence_pattern := pat, parent_reminder_id := none,
    last_occurrence_at := none, max_occurrences := none,
    occurrence_count := 0, recurrence_end_date := none }

/-- Concrete fixture store: three due reminders of user 7, the third a
recurring head. -/
def sampleStore : Store :=
  { rows := [sampleReminder 1 7 ⟨2024, 1, 1, 0⟩ false none,
             sampleReminder 2 7 ⟨2024, 1, 2, 0⟩ false none,
             sampleReminder 3 7 ⟨2024, 1, 3, 0⟩ true
               (some ⟨"interval", 2, .hours⟩)],
    nextId := 4 }

/-- Concrete dispatch outcomes: delivery fails exactly for reminder 2. -/
def sampleDispatch : Reminder → Bool := fun r => r.id != 2

def sampleNow : DateTime := ⟨2024, 1, 10, 0⟩


/-- Quiet head: every row with id `h` can no longer spawn a successor when
processed — it is already sent, or not recurring, or has no pattern. -/
def quietAt (S : Store) (h : Nat) : Prop :=
  ∀ x ∈ S.rows, x.id = h →
    x.is_sent = true ∨ x.is_recurring = false ∨ x.recurrence_pattern = none


/-!
Embedding of `parseReminderText`.  The third-party natural-language
date/time resolver (`chrono.parse`) is an external collaborator and is
passed in as the `resolve` function (its reference instant and timezone are
captured in that closure).  The global regex replaces are embedded as
left-to-right scans; the fuel argument of each scan equals the input length,
which always suffices because every matcher consumes at least one character
per match.
-/

/-- One result of the external date/time resolver: the resolved instant, the
start index and text of the matched span, and the certainty flags consulted
by the confidence derivation (`isCertain` on hour/minute/day/month). -/
structure ChronoResult where
  date : DateTime
  index : Nat
  text : List Char
  certainHour : Bool
  certainMinute : Bool
  certainDay : Bool
  certainMonth : Bool
deriving DecidableEq, Repr

inductive Confidence where
  | low
  | medium
  | high
deriving DecidableEq, Repr

/-- Return value of `parseReminderText`.  In the source the two recurrence
fields are simply absent for non-recurring results; here they carry `false`
and `none`. -/
structure ParsedReminder where
  task : List Char
  scheduledAt : DateTime
  confidence : Confidence
  isRecurring : Bool
  recurrencePattern : Option RecurrencePattern
deriving DecidableEq, Repr

/-- `text.replace(/^<pat>\s+/i, '')`: strip a case-insensitive literal
prefix followed by whitespace; unchanged when the prefix does not match. -/
def stripPrefixCI (pat : List Char) (cs : List Char) : List Char :=
  match matchLit pat cs with
  | some rest =>
    match matchWs1 rest with
    | some rest2 => rest2
    | none => cs
  | none => cs

/-- `text.replace(/^me\s+to\s+/i, '')`. -/
def stripMeTo (cs : List Char) : List Char :=
  match matchLit "me".toList cs with
  | some r1 =>
    match matchWs1 r1 with
    | some r2 =>
      match matchLit "to".toList r2 with
      | some r3 =>
        match matchWs1 r3 with
        | some r4 => r4
        | none => cs
      | none => cs
    | none => cs
  | none => cs

/-- The `cleanText` of `parseReminderText`: strip "/remind", then "remind",
then "me to". -/
def cleanTextOf (cs : List Char) : List Char :=
  stripMeTo (stripPrefixCI "remind".toList (stripPrefixCI "/remind".toList cs))

/-- Global-replace scan without word boundaries (for the two `every ...`
replaces). -/
def replaceScanP (m : List Char → Option (List Char)) :
    Nat → List Char → List Char
  | 0, cs => cs
  | _ + 1, [] => []
  | fuel + 1, c :: rest =>
    match m (c :: rest) with
    | some rem => replaceScanP m fuel rem
    | none => c :: replaceScanP m fuel rest

/-- `replace(/every\s+(\d+)\s+(minutes?|...)/gi, '')`. -/
def stripEveryNum (cs : List Char) : List Char :=
  replaceScanP (fun l => (matchEveryNumAt l).map (fun r => r.2.2)) cs.length cs

/-- `replace(/every\s+(minute|hour|day|week|month)/gi, '')`. -/
def stripEverySingular (cs : List Char) : List Char :=
  replaceScanP (fun l => (matchEverySingularAt l).map (fun r => r.2)) cs.length cs

/-- Global-replace scan for `/\b(daily|hourly|weekly|monthly)\b/gi`,
tracking the previous character for the left word boundary; after a removed
match the previous character is the match's last character, always `y`. -/
def replaceScanB : Nat → Option Char → List Char → List Char
  | 0, _, cs => cs
  | _ + 1, _, [] => []
  | fuel + 1, prev, c :: rest =>
    match matchFreqAt prev (c :: rest) with
    | some (_, rem) => replaceScanB fuel (some (Char.ofNat 121)) rem
    | none => c :: replaceScanB fuel (some c) rest

def stripFreqWords (cs : List Char) : List Char :=
  replaceScanB cs.length none cs

/-- The three recurrence-phrase replaces applied in the source's order. -/
def stripRecurrencePhrases (cs : List Char) : List Char :=
  stripFreqWords (stripEverySingular (stripEveryNum cs))

/-- JS `String.trim` (whitespace from both ends). -/
def trimWs (l : List Char) : List Char :=
  ((l.dropWhile isWsChar).reverse.dropWhile isWsChar).reverse

/-- `replace(/\s+/g, ' ')`: collapse whitespace runs to single spaces. -/
def collapseGo : Nat → List Char → List Char
  | 0, cs => cs
  | _ + 1, [] => []
  | fuel + 1, c :: rest =>
    if isWsChar c then ' ' :: collapseGo fuel (rest.dropWhile isWsChar)
    else c :: collapseGo fuel rest

def collapseWs (l : List Char) : List Char := collapseGo l.length l

def isPrefixOfL : List Char → List Char → Bool
  | [], _ => true
  | _ :: _, [] => false
  | p :: ps, c :: cs => p == c && isPrefixOfL ps cs

/-- JS `String.replace` with a string pattern: remove the first (case
sensitive) occurrence; with an empty pattern the string is unchanged. -/
def removeFirst (pat : List Char) : List Char → List Char
  | [] => []
  | c :: rest =>
    if isPrefixOfL pat (c :: rest) then (c :: rest).drop pat.length
    else c :: removeFirst pat rest

/-- The `textForDateParsing` of `parseReminderText`: for recurring input the
recurrence phrases are stripped, and if nothing with a digit remains the
text "now" is resolved instead (first occurrence anchors at the reference
instant). -/
def textForDateParsingOf (cleanText : List Char) (isRecurring : Bool) :
    List Char :=
  if isRecurring then
    let t := trimWs (stripRecurrencePhrases cleanText)
    if t.isEmpty || !(t.any isDigitChar) then "now".toList else t
  else cleanText

/-- `parseReminderText(text, userTimezone, referenceDate)`.  `resolve` is the
external resolver (`chrono.parse` with `forwardDate: true`, closed over the
reference instant and timezone); the source consults only the first result.
`setSeconds(0, 0)` on the immediate-start branch is the floor to the
minute. -/
def parseReminderText (resolve : List Char → List ChronoResult)
    (text : String) (referenceDate : DateTime) : Option ParsedReminder :=
  let cleanText := cleanTextOf text.toList
  let recurrencePattern := parseRecurrencePatternL cleanText
  let isRecurring := recurrencePattern.isSome
  let textForDateParsing := textForDateParsingOf cleanText isRecurring
  match resolve textForDateParsing with
  | [] =>
    if isRecurring then
      some { task :=
               (let t := trimWs (stripRecurrencePhrases cleanText)
                if t.isEmpty then "Recurring reminder".toList else t),
             scheduledAt := { referenceDate with
               msOfDay := referenceDate.msOfDay / 60000 * 60000 },
             confidence := .medium,
             isRecurring := true,
             recurrencePattern := recurrencePattern }
    else none
  | result :: _ =>
    let scheduledAt := result.date
    if !isRecurring && decide (scheduledAt.toLin ≤ referenceDate.toLin) then
      none
    else
      let taskText := textForDateParsing.take result.index
        ++ textForDateParsing.drop (result.index + result.text.length)
      let task0 := collapseWs (trimWs taskText)
      let task := if isRecurring then
          collapseWs (trimWs (removeFirst result.text
            (stripRecurrencePhrases cleanText)))
        else task0
      let confidence0 : Confidence :=
        if result.certainHour && result.certainMinute then .high
        else if result.certainDay && result.certainMonth then .medium
        else .low
      let confidence := if isRecurring && (confidence0 == .high) then
          Confidence.medium
        else confidence0
      some { task := if task.isEmpty then "Reminder".toList else task,
             scheduledAt := scheduledAt,
             confidence := confidence,
             isRecurring := isRecurring,
             recurrencePattern := recurrencePattern }


/-- Fixture resolver that finds no time expression. -/
def emptyResolve : List Char → List ChronoResult := fun _ => []

/-- Fixture resolver that resolves every text to a past instant
(2024-01-01T00:00), as the resolver does for "5 days ago" phrases. -/
def pastResolve : List Char → List ChronoResult :=
  fun _ => [{ date := ⟨2024, 1, 1, 0⟩, index := 0, text := [],
              certainHour := false, certainMinute := false,
              certainDay := false, certainMonth := false }]

-- Basic facts about the calendar model -----------------------------------

theorem daysInMonth_pos (y : Int) (m : Nat) : 1 ≤ daysInMonth y m := by
  unfold daysInMonth
  split <;> (try split) <;> norm_num

theorem daysInMonth_le_31 (y : Int) (m : Nat) : daysInMonth y m ≤ 31 := by
  unfold daysInMonth
  split <;> (try split) <;> norm_num

theorem daysInMonth_ge_28 (y : Int) (m : Nat) : 28 ≤ daysInMonth y m := by
  unfold daysInMonth
  split <;> (try split) <;> norm_num

theorem nextDay_valid_lt (d : DateTime) (h : ValidDT d) :
    ValidDT (nextDay d) ∧
      d.toLin + 86400000 ≤ (nextDay d).toLin ∧ (nextDay d).msOfDay = d.msOfDay := by
  obtain ⟨h1, h2, h3, h4, h5⟩ := h
  have h31 := daysInMonth_le_31 d.year d.month
  have hp2 := daysInMonth_pos d.year (d.month + 1)
  have hp1 := daysInMonth_pos (d.year + 1) 1
  unfold nextDay
  split
  next hc =>
    refine ⟨?_, ?_, rfl⟩
    · unfold ValidDT
      dsimp only
      exact ⟨h1, h2, by omega, by omega, h5⟩
    · unfold DateTime.toLin
      dsimp only
      omega
  next hc =>
    split
    next hm =>
      refine ⟨?_, ?_, rfl⟩
      · unfold ValidDT
        dsimp only
        exact ⟨by omega, by omega, by omega, by omega, h5⟩
      · unfold DateTime.toLin
        dsimp only
        omega
    next hm =>
      refine ⟨?_, ?_, rfl⟩
      · unfold ValidDT
        dsimp only
        exact ⟨by omega, by omega, by omega, by omega, h5⟩
      · unfold DateTime.toLin
        dsimp only
        omega

theorem addDays_valid_ge (d : DateTime) (n : Nat) (h : ValidDT d) :
    ValidDT (addDays d n) ∧
      d.toLin + (n : Int) * 86400000 ≤ (addDays d n).toLin ∧
      (addDays d n).msOfDay = d.msOfDay := by
  induction n generalizing d with
  | zero => simpa [addDays] using h
  | succ n ih =>
    obtain ⟨hv, hlin, hms⟩ := nextDay_valid_lt d h
    obtain ⟨hv', hlin', hms'⟩ := ih (nextDay d) hv
    refine ⟨by simpa [addDays] using hv', ?_, by simp [addDays, hms', hms]⟩
    simp only [addDays]
    push_cast
    omega

theorem addMs_valid_gt (d : DateTime) (k : Nat) (h : ValidDT d) (hk : 1 ≤ k) :
    ValidDT (addMs d k) ∧ d.toLin < (addMs d k).toLin := by
  obtain ⟨h1, h2, h3, h4, h5⟩ := h
  have hrlt : (d.msOfDay + k) % 86400000 < 86400000 := Nat.mod_lt _ (by norm_num)
  have hdm : 86400000 * ((d.msOfDay + k) / 86400000) + (d.msOfDay + k) % 86400000
      = d.msOfDay + k := Nat.div_add_mod _ _
  have hvalid' : ValidDT { d with msOfDay := (d.msOfDay + k) % 86400000 } :=
    ⟨h1, h2, h3, h4, hrlt⟩
  obtain ⟨hv, hlin, _⟩ :=
    addDays_valid_ge { d with msOfDay := (d.msOfDay + k) % 86400000 }
      ((d.msOfDay + k) / 86400000) hvalid'
  refine ⟨by simpa [addMs] using hv, ?_⟩
  have hbase : DateTime.toLin { d with msOfDay := (d.msOfDay + k) % 86400000 } =
      d.toLin - (d.msOfDay : Int) + (((d.msOfDay + k) % 86400000 : Nat) : Int) := by
    simp only [DateTime.toLin]
    omega
  show d.toLin < DateTime.toLin (addDays _ _)
  rw [hbase] at hlin
  omega

theorem addMonths_gt (d : DateTime) (v : Nat) (h : ValidDT d) (hv : 1 ≤ v) :
    d.toLin < (addMonths d v).toLin := by
  obtain ⟨h1, h2, h3, h4, h5⟩ := h
  have h31 := daysInMonth_le_31 d.year d.month
  have hday31 : d.day ≤ 31 := le_trans h4 h31
  have hqr : 12 * ((d.month - 1 + v) / 12) + (d.month - 1 + v) % 12
      = d.month - 1 + v := Nat.div_add_mod _ _
  have hrlt : (d.month - 1 + v) % 12 < 12 := Nat.mod_lt _ (by norm_num)
  have hbv : ValidDT (monthAnchor d v) := by
    unfold monthAnchor ValidDT
    dsimp only
    refine ⟨by omega, by omega, le_refl 1, daysInMonth_pos _ _, h5⟩
  obtain ⟨hv', hlin, _⟩ := addDays_valid_ge (monthAnchor d v) (d.day - 1) hbv
  have hbase : (monthAnchor d v).toLin =
      ((d.year + (((d.month - 1) + v) / 12 : Nat)) * 372
        + ((((d.month - 1) + v) % 12 : Nat) : Int) * 31) * 86400000
        + (d.msOfDay : Int) := by
    unfold monthAnchor DateTime.toLin
    dsimp only
    push_cast
    ring
  unfold addMonths
  rw [hbase] at hlin
  have hd : d.toLin =
      (d.year * 372 + ((d.month : Int) - 1) * 31 + ((d.day : Int) - 1)) * 86400000
        + (d.msOfDay : Int) := rfl
  omega

/-- Auxiliary: adding days that stay within the current month just advances
the day-of-month field. -/
theorem addDays_within (n : Nat) (d : DateTime) (h : ValidDT d)
    (hn : d.day + n ≤ daysInMonth d.year d.month) :
    addDays d n = { d with day := d.day + n } := by
  induction n generalizing d with
  | zero => cases d; rfl
  | succ n ih =>
    obtain ⟨h1, h2, h3, h4, h5⟩ := h
    have hdlt : d.day < daysInMonth d.year d.month := by omega
    have hnext : nextDay d = { d with day := d.day + 1 } := by
      unfold nextDay
      rw [if_pos hdlt]
    have hv' : ValidDT { d with day := d.day + 1 } := by
      unfold ValidDT
      dsimp only
      exact ⟨h1, h2, by omega, by omega, h5⟩
    have hn' : ({ d with day := d.day + 1 }).day + n
        ≤ daysInMonth ({ d with day := d.day + 1 }).year
            ({ d with day := d.day + 1 }).month := by
      dsimp only
      omega
    have hstep : addDays d (n + 1) = addDays (nextDay d) n := rfl
    rw [hstep, hnext, ih { d with day := d.day + 1 } hv' hn']
    cases d
    dsimp only
    rw [Nat.add_assoc, Nat.add_comm 1 n]

/-- Claim C1 (amended): for the months unit, `calculateNextOccurrence` adds
`value` calendar months with year rollover past December — in particular
2024-12-15T10:00 plus `{value:2, unit:months}` is 2025-02-15T10:00, and in
general when the source day-of-month exists in the target month the result is
exactly the same day of the month `value` months later (year advanced by the
month overflow).  However, when the source day-of-month does not exist in the
target month, the date does NOT clamp to the target month's last day: it
overflows into the following month by the excess days (2025-01-31 plus one
month is 2025-03-03). -/
theorem calcNext_months_rollover_and_day_overflow :
    (calculateNextOccurrence ⟨2024, 12, 15, 36000000⟩ ⟨"interval", 2, .months⟩
      = ⟨2025, 2, 15, 36000000⟩)
    ∧ (calculateNextOccurrence ⟨2025, 1, 31, 0⟩ ⟨"interval", 1, .months⟩
      = ⟨2025, 3, 3, 0⟩)
    ∧ (∀ (d : DateTime) (v : Nat) (t : String), ValidDT d →
        d.day ≤ daysInMonth (d.year + (((d.month - 1) + v) / 12 : Nat))
          (((d.month - 1) + v) % 12 + 1) →
        calculateNextOccurrence d ⟨t, v, .months⟩
          = { year := d.year + (((d.month - 1) + v) / 12 : Nat),
              month := ((d.month - 1) + v) % 12 + 1,
              day := d.day, msOfDay := d.msOfDay }) := by
  refine ⟨by decide, by decide, ?_⟩
  intro d v t h hday
  obtain ⟨h1, h2, h3, h4, h5⟩ := h
  show addMonths d v = _
  unfold addMonths
  have hbv : ValidDT (monthAnchor d v) := by
    unfold monthAnchor ValidDT
    dsimp only
    exact ⟨by omega, by omega, le_refl 1, daysInMonth_pos _ _, h5⟩
  have hcond : (monthAnchor d v).day + (d.day - 1)
      ≤ daysInMonth (monthAnchor d v).year (monthAnchor d v).month := by
    unfold monthAnchor
    dsimp only
    omega
  rw [addDays_within (d.day - 1) (monthAnchor d v) hbv hcond]
  unfold monthAnchor
  dsimp only
  congr 1
  omega

/-- Witness for `calcNext_months_rollover_and_day_overflow`: the general
no-overflow part applied at 2024-12-15T10:00 plus 2 months. -/
theorem calcNext_months_rollover_witness :
    ValidDT ⟨2024, 12, 15, 36000000⟩ ∧
      calculateNextOccurrence ⟨2024, 12, 15, 36000000⟩ ⟨"interval", 2, .months⟩
        = ⟨2025, 2, 15, 36000000⟩ :=
  ⟨by decide,
    calcNext_months_rollover_and_day_overflow.2.2 ⟨2024, 12, 15, 36000000⟩ 2
      "interval" (by decide) (by decide)⟩

/-- Counterexample to claim C1 as stated: an anchor on January 31 plus one
month does not land on the last day of February (2025-02-28); it lands on
March 3. -/
theorem calcNext_months_no_clamp_counterexample :
    calculateNextOccurrence ⟨2025, 1, 31, 0⟩ ⟨"interval", 1, .months⟩
        = ⟨2025, 3, 3, 0⟩
      ∧ calculateNextOccurrence ⟨2025, 1, 31, 0⟩ ⟨"interval", 1, .months⟩
        ≠ ⟨2025, 2, 28, 0⟩ := by
  exact ⟨by decide, by decide⟩

/-- Claim C2 (amended): for every recurrence pattern with a positive value
and every anchor instant, `calculateNextOccurrence` is strictly after the
anchor (comparison of instants via the order-preserving linearisation). -/
theorem calcNext_strictly_after_of_pos (d : DateTime) (p : RecurrencePattern)
    (h : ValidDT d) (hv : 1 ≤ p.value) :
    d.toLin < (calculateNextOccurrence d p).toLin := by
  obtain ⟨t, v, u⟩ := p
  dsimp only at hv
  cases u with
  | minutes => exact (addMs_valid_gt d (v * 60000) h (by omega)).2
  | hours => exact (addMs_valid_gt d (v * 3600000) h (by omega)).2
  | days =>
    have := (addDays_valid_ge d v h).2.1
    have hv' : (1 : Int) ≤ (v : Int) := by exact_mod_cast hv
    show d.toLin < (addDays d v).toLin
    omega
  | weeks =>
    have := (addDays_valid_ge d (v * 7) h).2.1
    have hv' : (1 : Int) ≤ (v : Int) := by exact_mod_cast hv
    have hc : ((v * 7 : Nat) : Int) = (v : Int) * 7 := by push_cast; ring
    show d.toLin < (addDays d (v * 7)).toLin
    omega
  | months => exact addMonths_gt d v h hv

/-- Witness for `calcNext_strictly_after_of_pos` at a concrete valid anchor
and the pattern `{value := 1, unit := minutes}`. -/
theorem calcNext_strictly_after_witness :
    ValidDT ⟨2024, 1, 1, 0⟩ ∧ 1 ≤ (⟨"interval", 1, .minutes⟩ : RecurrencePattern).value ∧
      DateTime.toLin ⟨2024, 1, 1, 0⟩
        < (calculateNextOccurrence ⟨2024, 1, 1, 0⟩ ⟨"interval", 1, .minutes⟩).toLin :=
  ⟨by decide, by decide,
    calcNext_strictly_after_of_pos ⟨2024, 1, 1, 0⟩ ⟨"interval", 1, .minutes⟩
      (by decide) (by decide)⟩

/-- Counterexample to claim C2 as stated: the pattern type admits
`value = 0` (and the pattern parser can produce it, see the "every 0 hours"
theorem), and with a zero value the next occurrence equals the anchor, so it
is not strictly after it. -/
theorem calcNext_not_after_on_zero_value :
    calculateNextOccurrence ⟨2024, 1, 1, 0⟩ ⟨"interval", 0, .minutes⟩ = ⟨2024, 1, 1, 0⟩
      ∧ ¬ DateTime.toLin ⟨2024, 1, 1, 0⟩
          < (calculateNextOccurrence ⟨2024, 1, 1, 0⟩ ⟨"interval", 0, .minutes⟩).toLin := by
  exact ⟨by decide, by decide⟩

-- Facts about the character classes --------------------------------------

theorem lowerChar_digit (c : Char) (h : isDigitChar c = true) : lowerChar c = c := by
  unfold isDigitChar at h
  simp only [Bool.and_eq_true, decide_eq_true_eq] at h
  unfold lowerChar
  rw [if_neg (by omega)]

theorem notWs_of_digit (c : Char) (h : isDigitChar c = true) : isWsChar c = false := by
  unfold isWsChar
  simp only [Bool.or_eq_false_iff, beq_eq_false_iff_ne, ne_eq]
  refine ⟨⟨⟨⟨⟨?_, ?_⟩, ?_⟩, ?_⟩, ?_⟩, ?_⟩ <;>
    exact fun hc => absurd (hc ▸ h) (by decide)

theorem lowerList_digits (ds : List Char) (h : ∀ c ∈ ds, isDigitChar c = true) :
    List.map lowerChar ds = ds := by
  induction ds with
  | nil => rfl
  | cons c t ih =>
    rw [List.map_cons, lowerChar_digit c (h c (List.mem_cons_self c t)),
      ih (fun x hx => h x (List.mem_cons_of_mem c hx))]

theorem takeWhile_append_all (p : Char → Bool) (l1 : List Char) (x : Char)
    (l2 : List Char) (h : ∀ c ∈ l1, p c = true) (hx : p x = false) :
    (l1 ++ x :: l2).takeWhile p = l1 ∧ (l1 ++ x :: l2).dropWhile p = x :: l2 := by
  induction l1 with
  | nil => simp [List.takeWhile, List.dropWhile, hx]
  | cons c t ih =>
    have hc := h c (List.mem_cons_self c t)
    obtain ⟨ih1, ih2⟩ := ih (fun y hy => h y (List.mem_cons_of_mem c hy))
    simp [List.takeWhile, List.dropWhile, hc, ih1, ih2]

/-- Claim C4: `parseRecurrencePattern` is case-insensitive and recognises, in
precedence order, `every <n> <unit>(s)`, `every <unit>`, and the bare words
hourly/daily/weekly/monthly, normalising units to the plural form; unmatched
text yields null.  Each conjunct exercises one aspect: the three examples of
the claim, case-insensitivity, singular-to-plural normalisation, the
`every <unit>` grammar, the three other bare frequency words, and the two
precedence orderings (grammar 1 beats the bare words even when the bare word
occurs earlier in the text, grammar 2 beats grammar 3). -/
theorem parseRecurrencePattern_grammar :
    parseRecurrencePattern "every 3 hours" = some ⟨"interval", 3, .hours⟩
    ∧ parseRecurrencePattern "daily" = some ⟨"interval", 1, .days⟩
    ∧ parseRecurrencePattern "call mom" = none
    ∧ parseRecurrencePattern "EVERY 3 HOURS" = some ⟨"interval", 3, .hours⟩
    ∧ parseRecurrencePattern "every 2 week" = some ⟨"interval", 2, .weeks⟩
    ∧ parseRecurrencePattern "every hour" = some ⟨"interval", 1, .hours⟩
    ∧ parseRecurrencePattern "hourly" = some ⟨"interval", 1, .hours⟩
    ∧ parseRecurrencePattern "weekly" = some ⟨"interval", 1, .weeks⟩
    ∧ parseRecurrencePattern "monthly" = some ⟨"interval", 1, .months⟩
    ∧ parseRecurrencePattern "daily every 3 hours" = some ⟨"interval", 3, .hours⟩
    ∧ parseRecurrencePattern "every week daily" = some ⟨"interval", 1, .weeks⟩ := by
  refine ⟨?_, ?_, ?_, ?_, ?_, ?_, ?_, ?_, ?_, ?_, ?_⟩ <;> decide

/-- Claim C10: the first grammar imposes no positivity constraint on the
integer: "every 0 hours" parses to value 0, and in general any nonempty digit
string in the `every <digits> hours` shape is passed through `parseInt`
unchanged as the pattern value. -/
theorem parseRecurrencePattern_zero_allowed :
    parseRecurrencePattern "every 0 hours" = some ⟨"interval", 0, .hours⟩
    ∧ ∀ ds : List Char, ds ≠ [] → (∀ c ∈ ds, isDigitChar c = true) →
        parseRecurrencePatternL ("every ".toList ++ ds ++ " hours".toList)
          = some ⟨"interval", digitsToNat ds, .hours⟩ := by
  refine ⟨by decide, ?_⟩
  intro ds hne hdig
  cases ds with
  | nil => exact absurd rfl hne
  | cons d0 t =>
  have hdig' : ∀ c ∈ d0 :: t, isDigitChar c = true := hdig
  have hd0 := hdig' d0 (List.mem_cons_self d0 t)
  unfold parseRecurrencePatternL
  have hl : lowerList ("every ".toList ++ (d0 :: t) ++ " hours".toList)
      = "every ".toList ++ (d0 :: t) ++ " hours".toList := by
    unfold lowerList
    rw [List.map_append, List.map_append, lowerList_digits (d0 :: t) hdig']
    rw [show List.map lowerChar "every ".toList = "every ".toList from by decide]
    rw [show List.map lowerChar " hours".toList = " hours".toList from by decide]
  rw [hl]
  have hsplit : "every ".toList ++ (d0 :: t) ++ " hours".toList
      = 'e' :: 'v' :: 'e' :: 'r' :: 'y' :: ' ' :: ((d0 :: t) ++ ' ' :: "hours".toList) := by
    rw [List.append_assoc]
    rfl
  rw [hsplit]
  obtain ⟨htake, hdrop⟩ :=
    takeWhile_append_all isDigitChar (d0 :: t) ' ' "hours".toList hdig' (by decide)
  have h1 : matchLit "every".toList
      ('e' :: 'v' :: 'e' :: 'r' :: 'y' :: ' ' :: ((d0 :: t) ++ ' ' :: "hours".toList))
      = some (' ' :: ((d0 :: t) ++ ' ' :: "hours".toList)) := rfl
  have h2 : matchWs1 (' ' :: ((d0 :: t) ++ ' ' :: "hours".toList))
      = some ((d0 :: t) ++ ' ' :: "hours".toList) := by
    simp [matchWs1, List.cons_append, List.dropWhile, notWs_of_digit d0 hd0]
    decide
  have h3 : matchDigits1 ((d0 :: t) ++ ' ' :: "hours".toList)
      = some (digitsToNat (d0 :: t), ' ' :: "hours".toList) := by
    unfold matchDigits1
    rw [htake, hdrop]
  have h4 : matchWs1 (' ' :: "hours".toList) = some "hours".toList := by decide
  have h5 : matchUnitS "hours".toList = some (TimeUnit.hours, []) := by decide
  have hm : matchEveryNumAt
      ('e' :: 'v' :: 'e' :: 'r' :: 'y' :: ' ' :: ((d0 :: t) ++ ' ' :: "hours".toList))
      = some (digitsToNat (d0 :: t), TimeUnit.hours, []) := by
    unfold matchEveryNumAt
    rw [h1]
    simp only [Option.bind_eq_bind, Option.some_bind]
    rw [h2]
    simp only [Option.some_bind]
    rw [h3]
    simp only [Option.some_bind]
    rw [h4]
    simp only [Option.some_bind]
    rw [h5]
    rfl
  have hscan : scanEveryNum
      ('e' :: 'v' :: 'e' :: 'r' :: 'y' :: ' ' :: ((d0 :: t) ++ ' ' :: "hours".toList))
      = some (digitsToNat (d0 :: t), TimeUnit.hours) := by
    unfold scanEveryNum
    rw [hm]
  dsimp only
  rw [hscan]

/-- Witness for `parseRecurrencePattern_zero_allowed`: the general part
applied to the digit string "00". -/
theorem parseRecurrencePattern_zero_allowed_witness :
    (['0', '0'] : List Char) ≠ []
      ∧ parseRecurrencePatternL ("every ".toList ++ ['0', '0'] ++ " hours".toList)
        = some ⟨"interval", 0, .hours⟩ :=
  ⟨by decide, parseRecurrencePattern_zero_allowed.2 ['0', '0'] (by decide) (by decide)⟩

-- Store lemmas and claims C5, C8 -----------------------------------------

theorem countP_map_pointwise (p : Reminder → Bool) (g : Reminder → Reminder)
    (l : List Reminder) (h : ∀ r, p (g r) = p r) :
    (l.map g).countP p = l.countP p := by
  induction l with
  | nil => rfl
  | cons a t ih => simp [List.countP_cons, h a, ih]

/-- Claim C5: `stopRecurringReminder(headId, owner)` deactivates exactly the
rows whose id is the head or whose `parent_reminder_id` is the head, owned by
the caller and not yet sent — every other row (other users' rows,
already-sent occurrences) is unchanged — and afterwards `getDueReminders`
returns no row of that series owned by the caller. -/
theorem stopSeries_deactivates_exactly_and_excludes_due
    (S : Store) (headId owner : Nat) :
    ((stopRecurringReminder S headId owner).1.rows
      = S.rows.map fun r =>
          if (r.id = headId ∨ r.parent_reminder_id = some headId)
              ∧ r.telegram_id = owner ∧ r.is_sent = false
          then { r with is_active := false } else r)
    ∧ ∀ (now : DateTime) (r' : Reminder),
        r' ∈ getDueReminders now (stopRecurringReminder S headId owner).1 →
        ¬((r'.id = headId ∨ r'.parent_reminder_id = some headId)
            ∧ r'.telegram_id = owner) := by
  have point : ∀ r : Reminder,
      (if ((r.id == headId || r.parent_reminder_id == some headId)
            && r.telegram_id == owner && r.is_sent == false) = true
        then { r with is_active := false } else r)
      = if (r.id = headId ∨ r.parent_reminder_id = some headId)
            ∧ r.telegram_id = owner ∧ r.is_sent = false
        then { r with is_active := false } else r := by
    intro r
    by_cases h : (r.id = headId ∨ r.parent_reminder_id = some headId)
        ∧ r.telegram_id = owner ∧ r.is_sent = false
    · rw [if_pos h, if_pos]
      obtain ⟨hor, hown, hsent⟩ := h
      rcases hor with h' | h' <;> simp [h', hown, hsent]
    · rw [if_neg h, if_neg]
      intro hb
      apply h
      simp at hb
      tauto
  have hrows : (stopRecurringReminder S headId owner).1.rows
      = S.rows.map fun r =>
          if (r.id = headId ∨ r.parent_reminder_id = some headId)
              ∧ r.telegram_id = owner ∧ r.is_sent = false
          then { r with is_active := false } else r := by
    show S.rows.map _ = S.rows.map _
    rw [funext point]
  refine ⟨hrows, ?_⟩
  intro now r' hmem hcontra
  obtain ⟨hlink, hown⟩ := hcontra
  have hmem' : r' ∈ ((stopRecurringReminder S headId owner).1.rows.filter
      (dueBefore now)) := (List.perm_insertionSort _ _).mem_iff.mp hmem
  have hdue : dueBefore now r' = true := (List.mem_filter.mp hmem').2
  have hrow : r' ∈ (stopRecurringReminder S headId owner).1.rows :=
    (List.mem_filter.mp hmem').1
  unfold dueBefore at hdue
  simp only [Bool.and_eq_true, Bool.not_eq_true'] at hdue
  obtain ⟨⟨hact, hnsent⟩, _⟩ := hdue
  rw [hrows] at hrow
  obtain ⟨r, hrS, hr⟩ := List.mem_map.mp hrow
  by_cases hc : (r.id = headId ∨ r.parent_reminder_id = some headId)
      ∧ r.telegram_id = owner ∧ r.is_sent = false
  · rw [if_pos hc] at hr
    rw [← hr] at hact
    exact absurd hact (by simp)
  · rw [if_neg hc] at hr
    subst hr
    exact hc ⟨hlink, hown, hnsent⟩

/-- Witness for `stopSeries_deactivates_exactly_and_excludes_due`: in the
fixture store, after stopping series 3 for owner 7, the reminder with id 1
that is still returned by `getDueReminders` is not part of the stopped
series. -/
theorem stopSeries_witness :
    ¬((sampleReminder 1 7 ⟨2024, 1, 1, 0⟩ false none).id = 3
        ∨ (sampleReminder 1 7 ⟨2024, 1, 1, 0⟩ false none).parent_reminder_id
          = some 3)
      ∨ ¬(sampleReminder 1 7 ⟨2024, 1, 1, 0⟩ false none).telegram_id = 7 := by
  have := (stopSeries_deactivates_exactly_and_excludes_due sampleStore 3 7).2
    sampleNow (sampleReminder 1 7 ⟨2024, 1, 1, 0⟩ false none) (by decide)
  tauto

/-- Claim C8: `markReminderAsSent` is idempotent for every id present in the
store: both calls report success, the second call leaves the store exactly as
the first left it, and the row with that id ends with `is_sent = true`. -/
theorem markSent_idempotent (S : Store) (rid : Nat)
    (h : ∃ r ∈ S.rows, r.id = rid) :
    (markReminderAsSent S rid).2 = true
    ∧ (markReminderAsSent (markReminderAsSent S rid).1 rid).2 = true
    ∧ (markReminderAsSent (markReminderAsSent S rid).1 rid).1
        = (markReminderAsSent S rid).1
    ∧ ∀ r ∈ (markReminderAsSent (markReminderAsSent S rid).1 rid).1.rows,
        r.id = rid → r.is_sent = true := by
  obtain ⟨r0, hr0, hid0⟩ := h
  have hcnt : 0 < S.rows.countP (fun r => r.id == rid) :=
    List.countP_pos_iff.mpr ⟨r0, hr0, by simp [hid0]⟩
  have hp : ∀ r : Reminder,
      ((if r.id == rid then { r with is_sent := true } else r).id == rid)
        = (r.id == rid) := by
    intro r
    by_cases hc : (r.id == rid) = true <;> simp [hc]
  have hg : ∀ r : Reminder,
      (if ((if r.id == rid then { r with is_sent := true } else r).id == rid)
        then { (if r.id == rid then { r with is_sent := true } else r) with
               is_sent := true }
        else (if r.id == rid then { r with is_sent := true } else r))
      = (if r.id == rid then { r with is_sent := true } else r) := by
    intro r
    by_cases hc : (r.id == rid) = true <;> simp [hc]
  refine ⟨?_, ?_, ?_, ?_⟩
  · unfold markReminderAsSent updateWhere
    dsimp only
    simp only [bne_iff_ne, ne_eq, decide_eq_true_eq]
    omega
  · unfold markReminderAsSent updateWhere
    dsimp only
    rw [countP_map_pointwise _ _ _ hp]
    simp only [bne_iff_ne, ne_eq, decide_eq_true_eq]
    omega
  · unfold markReminderAsSent updateWhere
    dsimp only
    rw [List.map_map]
    congr 1
    apply List.map_congr_left
    intro a _
    exact hg a
  · intro r hr hid
    unfold markReminderAsSent updateWhere at hr
    dsimp only at hr
    rw [List.map_map] at hr
    obtain ⟨y, _, hgy⟩ := List.mem_map.mp hr
    by_cases hc : (y.id == rid) = true
    · rw [← hgy]
      simp [Function.comp, hc]
    · exfalso
      apply hc
      rw [← hgy] at hid
      simp [Function.comp] at hid
      by_cases hc2 : (y.id == rid) = true
      · exact hc2
      · simp [Bool.not_eq_true] at hc2
        rw [if_neg (by simp [hc2])] at hid
        rw [if_neg (by simp [hc2])] at hid
        simp [hid]

/-- Witness for `markSent_idempotent` at the fixture store and id 2. -/
theorem markSent_idempotent_witness :
    (∃ r ∈ sampleStore.rows, r.id = 2)
      ∧ (markReminderAsSent (markReminderAsSent sampleStore 2).1 2).1
          = (markReminderAsSent sampleStore 2).1 :=
  ⟨by decide, (markSent_idempotent sampleStore 2 (by decide)).2.2.1⟩

-- Lemmas about one processing step ----------------------------------------

theorem processOne_sent (dispatch : Reminder → Bool) (acc : ProcResult)
    (r : Reminder) :
    (processOne dispatch acc r).sent
      = if dispatch r then acc.sent + 1 else acc.sent := by
  unfold processOne
  by_cases hd : dispatch r = true
  · rw [if_pos hd, if_pos hd]
    dsimp only
    split
    · split <;> rfl
    · rfl
  · rw [if_neg hd, if_neg hd]

theorem processOne_failed (dispatch : Reminder → Bool) (acc : ProcResult)
    (r : Reminder) :
    (processOne dispatch acc r).failed
      = if dispatch r then acc.failed else acc.failed + 1 := by
  unfold processOne
  by_cases hd : dispatch r = true
  · rw [if_pos hd, if_pos hd]
    dsimp only
    split
    · split <;> rfl
    · rfl
  · rw [if_neg hd, if_neg hd]

theorem processList_counts (dispatch : Reminder → Bool) (L : List Reminder) :
    ∀ acc : ProcResult,
      ((L.foldl (processOne dispatch) acc).sent
          = acc.sent + (L.filter dispatch).length)
      ∧ ((L.foldl (processOne dispatch) acc).failed
          = acc.failed + (L.filter (fun r => !dispatch r)).length) := by
  induction L with
  | nil => intro acc; simp
  | cons r t ih =>
    intro acc
    obtain ⟨ih1, ih2⟩ := ih (processOne dispatch acc r)
    rw [List.foldl_cons] at *
    constructor
    · rw [ih1, processOne_sent]
      by_cases hd : dispatch r = true <;>
        simp [List.filter_cons, hd] <;> omega
    · rw [ih2, processOne_failed]
      by_cases hd : dispatch r = true <;>
        simp [List.filter_cons, hd] <;> omega

theorem createNext_keeps_unsent (S : Store) (r : Reminder) (rid : Nat)
    (hinv : ∀ x ∈ S.rows, x.id = rid → x.is_sent = false) :
    ∀ x ∈ (createNextRecurrence S r).1.rows, x.id = rid → x.is_sent = false := by
  unfold createNextRecurrence
  split
  · exact hinv
  · split
    · exact hinv
    · dsimp only
      split
      · exact hinv
      · intro x hx hxid
        unfold createReminder updateWhere at hx
        dsimp only at hx
        rw [List.map_map] at hx
        obtain ⟨y, hy, hgy⟩ := List.mem_map.mp hx
        rcases List.mem_append.mp hy with hyold | hynew
        · -- an existing row: the two bookkeeping updates touch neither
          -- is_sent nor id
          have hsent : x.is_sent = y.is_sent ∧ x.id = y.id := by
            rw [← hgy]
            simp only [Function.comp]
            by_cases hc1 : (y.id == S.nextId) = true <;>
              by_cases hc2 : (y.id == r.id) = true <;>
                simp [hc1, hc2]
          rw [hsent.1]
          exact hinv y hyold (by rw [← hsent.2]; exact hxid)
        · -- the freshly inserted successor row is created unsent
          rw [List.mem_singleton] at hynew
          subst hynew
          rw [← hgy]
          simp only [Function.comp]
          by_cases hc2 : (S.nextId == r.id) = true <;> simp [hc2]

theorem processOne_keeps_unsent (dispatch : Reminder → Bool) (acc : ProcResult)
    (r : Reminder) (rid : Nat) (hne : dispatch r = true → r.id ≠ rid)
    (hinv : ∀ x ∈ acc.store.rows, x.id = rid → x.is_sent = false) :
    ∀ x ∈ (processOne dispatch acc r).store.rows, x.id = rid →
      x.is_sent = false := by
  unfold processOne
  by_cases hd : dispatch r = true
  · rw [if_pos hd]
    have hrne := hne hd
    have hinv1 : ∀ x ∈ (markReminderAsSent acc.store r.id).1.rows,
        x.id = rid → x.is_sent = false := by
      intro x hx hxid
      unfold markReminderAsSent updateWhere at hx
      dsimp only at hx
      obtain ⟨y, hy, hgy⟩ := List.mem_map.mp hx
      by_cases hc : (y.id == r.id) = true
      · exfalso
        rw [← hgy] at hxid
        rw [if_pos hc] at hxid
        exact hrne ((beq_iff_eq.mp hc) ▸ hxid)
      · rw [if_neg hc] at hgy
        subst hgy
        exact hinv y hy hxid
    dsimp only
    split
    · split
      next heq =>
        intro x hx
        have := createNext_keeps_unsent (markReminderAsSent acc.store r.id).1
          r rid hinv1 x
        rw [heq] at this
        exact this hx
      next heq =>
        intro x hx
        have := createNext_keeps_unsent (markReminderAsSent acc.store r.id).1
          r rid hinv1 x
        rw [heq] at this
        exact this hx
    · exact hinv1
  · rw [if_neg hd]
    exact hinv

theorem processList_keeps_unsent (dispatch : Reminder → Bool) (rid : Nat)
    (L : List Reminder) :
    ∀ acc : ProcResult, (∀ r' ∈ L, dispatch r' = true → r'.id ≠ rid) →
      (∀ x ∈ acc.store.rows, x.id = rid → x.is_sent = false) →
      ∀ x ∈ (L.foldl (processOne dispatch) acc).store.rows, x.id = rid →
        x.is_sent = false := by
  induction L with
  | nil => intro acc _ hinv; exact hinv
  | cons r t ih =>
    intro acc hL hinv
    rw [List.foldl_cons]
    exact ih (processOne dispatch acc r)
      (fun r' hr' => hL r' (List.mem_cons_of_mem r hr'))
      (processOne_keeps_unsent dispatch acc r rid
        (hL r (List.mem_cons_self r t)) hinv)

-- Distinct-id machinery ----------------------------------------------------

theorem distinctIds_iff (l : List Reminder) :
    distinctIds l = true ↔ l.Pairwise (fun a b => a.id ≠ b.id) := by
  induction l with
  | nil => simp [distinctIds]
  | cons r t ih =>
    simp only [distinctIds, Bool.and_eq_true, List.all_eq_true,
      List.pairwise_cons, ih]
    constructor
    · rintro ⟨h1, h2⟩
      exact ⟨fun b hb => fun he => by simpa [he] using h1 b hb, h2⟩
    · rintro ⟨h1, h2⟩
      exact ⟨fun b hb => by simpa using fun he => h1 b hb he.symm, h2⟩

theorem eq_of_mem_pairwise_ids {l : List Reminder}
    (hp : l.Pairwise (fun a b => a.id ≠ b.id)) {a b : Reminder}
    (ha : a ∈ l) (hb : b ∈ l) (hid : a.id = b.id) : a = b := by
  induction l with
  | nil => cases ha
  | cons x t ih =>
    obtain ⟨hx, ht⟩ := List.pairwise_cons.mp hp
    rcases List.mem_cons.mp ha with rfl | ha'
    · rcases List.mem_cons.mp hb with rfl | hb'
      · rfl
      · exact absurd hid (hx b hb')
    · rcases List.mem_cons.mp hb with rfl | hb'
      · exact absurd hid.symm (hx a ha')
      · exact ih ht ha' hb'

theorem getDue_pairwise_ids (now : DateTime) (S : Store)
    (hwf : wfStore S = true) :
    (getDueReminders now S).Pairwise (fun a b => a.id ≠ b.id) := by
  have hd : distinctIds S.rows = true := by
    unfold wfStore at hwf
    exact (Bool.and_eq_true _ _ |>.mp hwf).2
  have hp : S.rows.Pairwise (fun a b => a.id ≠ b.id) :=
    (distinctIds_iff S.rows).mp hd
  have hfil : (S.rows.filter (dueBefore now)).Pairwise
      (fun a b => a.id ≠ b.id) := hp.filter _
  unfold getDueReminders
  exact ((List.perm_insertionSort _ _).pairwise_iff
    (fun {a b} h => (h ·.symm))).mpr hfil

/-- Claim C6: `processDueReminders` isolates per-reminder failures.  For
every batch: `sent` counts exactly the due reminders whose dispatch
succeeds and `failed` exactly those whose dispatch fails; a failed
reminder's row keeps `is_sent = false` while the rest of the batch is still
processed; and on the concrete three-reminder fixture where only the second
dispatch fails the result is `sent = 2, failed = 1` (with one recurrence
created) and reminder 2 remains unsent. -/
theorem processDue_partial_failure_isolation :
    (∀ (dispatch : Reminder → Bool) (now : DateTime) (S : Store),
      (processDueReminders dispatch now S).sent
          = ((getDueReminders now S).filter dispatch).length
      ∧ (processDueReminders dispatch now S).failed
          = ((getDueReminders now S).filter (fun r => !dispatch r)).length)
    ∧ (∀ (dispatch : Reminder → Bool) (now : DateTime) (S : Store),
        wfStore S = true →
        ∀ r ∈ getDueReminders now S, dispatch r = false →
        ∀ x ∈ (processDueReminders dispatch now S).store.rows,
          x.id = r.id → x.is_sent = false)
    ∧ ((processDueReminders sampleDispatch sampleNow sampleStore).sent = 2
      ∧ (processDueReminders sampleDispatch sampleNow sampleStore).failed = 1
      ∧ (processDueReminders sampleDispatch sampleNow
          sampleStore).recurringCreated = 1
      ∧ (processDueReminders sampleDispatch sampleNow
          sampleStore).store.rows.countP (fun x => x.id == 2 && x.is_sent)
        = 0) := by
  refine ⟨?_, ?_, by decide, by decide, by decide, by decide⟩
  · intro dispatch now S
    obtain ⟨h1, h2⟩ := processList_counts dispatch (getDueReminders now S)
      { store := S, sent := 0, failed := 0, recurringCreated := 0, trace := [] }
    exact ⟨by simpa using h1, by simpa using h2⟩
  · intro dispatch now S hwf r hr hdisp
    have hpair := getDue_pairwise_ids now S hwf
    have hrfil : r ∈ S.rows.filter (dueBefore now) :=
      (List.perm_insertionSort _ _).mem_iff.mp hr
    have hrdue : dueBefore now r = true := (List.mem_filter.mp hrfil).2
    have hrS : r ∈ S.rows := (List.mem_filter.mp hrfil).1
    have hrsent : r.is_sent = false := by
      unfold dueBefore at hrdue
      simp only [Bool.and_eq_true, Bool.not_eq_true'] at hrdue
      exact hrdue.1.2
    have hSpair : S.rows.Pairwise (fun a b => a.id ≠ b.id) := by
      unfold wfStore at hwf
      exact (distinctIds_iff S.rows).mp (Bool.and_eq_true _ _ |>.mp hwf).2
    apply processList_keeps_unsent dispatch r.id (getDueReminders now S)
    · intro r' hr' hd' heq
      have : r' = r := eq_of_mem_pairwise_ids hpair hr' hr heq
      rw [this] at hd'
      rw [hdisp] at hd'
      exact Bool.false_ne_true hd'
    · intro x hx hxid
      have : x = r := eq_of_mem_pairwise_ids hSpair hx hrS hxid
      rw [this]
      exact hrsent

/-- Witness for `processDue_partial_failure_isolation`: on the fixture,
reminder 2 (the failed dispatch) is still unsent after the batch. -/
theorem processDue_partial_failure_isolation_witness :
    (sampleReminder 2 7 ⟨2024, 1, 2, 0⟩ false none).is_sent = false :=
  processDue_partial_failure_isolation.2.1 sampleDispatch sampleNow sampleStore
    (by decide) (sampleReminder 2 7 ⟨2024, 1, 2, 0⟩ false none) (by decide)
    (by decide) (sampleReminder 2 7 ⟨2024, 1, 2, 0⟩ false none) (by decide) rfl

-- Trace-ordering machinery -------------------------------------------------

theorem good_append (t1 t2 : List StoreEvent)
    (h1 : ∀ j p n, t1.get? j = some (.insertSuccessor p n) →
      ∃ i, i < j ∧ t1.get? i = some (.sent p))
    (h2 : ∀ j p n, t2.get? j = some (.insertSuccessor p n) →
      ∃ i, i < j ∧ t2.get? i = some (.sent p)) :
    ∀ j p n, (t1 ++ t2).get? j = some (.insertSuccessor p n) →
      ∃ i, i < j ∧ (t1 ++ t2).get? i = some (.sent p) := by
  intro j p n hj
  by_cases hlt : j < t1.length
  · rw [List.get?_append hlt] at hj
    obtain ⟨i, hi, hs⟩ := h1 j p n hj
    exact ⟨i, hi, by rw [List.get?_append (lt_trans hi hlt)]; exact hs⟩
  · push_neg at hlt
    rw [List.get?_append_right hlt] at hj
    obtain ⟨i, hi, hs⟩ := h2 (j - t1.length) p n hj
    refine ⟨t1.length + i, by omega, ?_⟩
    rw [List.get?_append_right (by omega),
      show t1.length + i - t1.length = i from by omega]
    exact hs

theorem createNext_events (S : Store) (r : Reminder) :
    (createNextRecurrence S r).2.2 = []
    ∨ ∃ nid, (createNextRecurrence S r).2.2
        = [.insertSuccessor r.id nid, .linkSuccessor nid, .updateHead r.id] := by
  unfold createNextRecurrence
  split
  · exact Or.inl rfl
  · split
    · exact Or.inl rfl
    · dsimp only
      split
      · exact Or.inl rfl
      · exact Or.inr ⟨S.nextId, rfl⟩

theorem block_good (rid : Nat) (ev : List StoreEvent)
    (hev : ev = [] ∨ ∃ nid, ev
      = [StoreEvent.insertSuccessor rid nid, StoreEvent.linkSuccessor nid,
         StoreEvent.updateHead rid]) :
    ∀ j p n, ([StoreEvent.dispatch rid true, StoreEvent.sent rid] ++ ev).get? j
        = some (StoreEvent.insertSuccessor p n) →
      ∃ i, i < j ∧
        ([StoreEvent.dispatch rid true, StoreEvent.sent rid] ++ ev).get? i
          = some (StoreEvent.sent p) := by
  intro j p n hj
  rcases hev with rfl | ⟨nid, rfl⟩
  · rcases j with _ | _ | j <;> simp_all
  · rcases j with _ | _ | _ | _ | _ | j
    · simp at hj
    · simp at hj
    · simp at hj
      obtain ⟨h1, h2⟩ := hj
      subst h1
      exact ⟨1, by omega, rfl⟩
    · simp at hj
    · simp at hj
    · simp at hj

theorem processOne_trace_shape (dispatch : Reminder → Bool) (acc : ProcResult)
    (r : Reminder) :
    ∃ t, (processOne dispatch acc r).trace = acc.trace ++ t
      ∧ ∀ j p n, t.get? j = some (.insertSuccessor p n) →
          ∃ i, i < j ∧ t.get? i = some (.sent p) := by
  unfold processOne
  by_cases hd : dispatch r = true
  · rw [if_pos hd]
    dsimp only
    split
    · split
      next S2 val ev heq =>
        refine ⟨[.dispatch r.id true, .sent r.id] ++ ev, by simp, ?_⟩
        apply block_good r.id ev
        have := createNext_events (markReminderAsSent acc.store r.id).1 r
        rw [heq] at this
        exact this
      next S2 ev heq =>
        refine ⟨[.dispatch r.id true, .sent r.id] ++ ev, by simp, ?_⟩
        apply block_good r.id ev
        have := createNext_events (markReminderAsSent acc.store r.id).1 r
        rw [heq] at this
        exact this
    · refine ⟨[.dispatch r.id true, .sent r.id], rfl, ?_⟩
      intro j p n hj
      rcases j with _ | _ | j <;> simp_all
  · rw [if_neg hd]
    refine ⟨[.dispatch r.id false], rfl, ?_⟩
    intro j p n hj
    rcases j with _ | j <;> simp_all

theorem processList_trace_good (dispatch : Reminder → Bool)
    (L : List Reminder) :
    ∀ acc : ProcResult,
      (∀ j p n, acc.trace.get? j = some (.insertSuccessor p n) →
        ∃ i, i < j ∧ acc.trace.get? i = some (.sent p)) →
      ∀ j p n, (L.foldl (processOne dispatch) acc).trace.get? j
          = some (.insertSuccessor p n) →
        ∃ i, i < j ∧ (L.foldl (processOne dispatch) acc).trace.get? i
          = some (.sent p) := by
  induction L with
  | nil => intro acc hacc; exact hacc
  | cons r t ih =>
    intro acc hacc
    rw [List.foldl_cons]
    apply ih
    obtain ⟨tr, htr, hgood⟩ := processOne_trace_shape dispatch acc r
    rw [htr]
    exact good_append acc.trace tr hacc hgood

/-- Claim C7: in every execution of `processDueReminders`, whenever a
successor row for reminder `p` is inserted (the INSERT inside
`createNextRecurrence`, at trace position `j`), the mark-sent UPDATE for `p`
occurs strictly earlier in the trace — so a successor is never created for a
reminder not already marked sent, and a reminder is never first marked sent
after its successor was created. -/
theorem processDue_marks_sent_before_spawning
    (dispatch : Reminder → Bool) (now : DateTime) (S : Store) (j p n : Nat)
    (hj : (processDueReminders dispatch now S).trace.get? j
      = some (.insertSuccessor p n)) :
    ∃ i, i < j ∧ (processDueReminders dispatch now S).trace.get? i
      = some (.sent p) := by
  refine processList_trace_good dispatch (getDueReminders now S)
    { store := S, sent := 0, failed := 0, recurringCreated := 0, trace := [] }
    ?_ j p n hj
  intro j' p' n' hj'
  simp at hj'

/-- Witness for `processDue_marks_sent_before_spawning`: on the fixture run,
the successor of reminder 3 is inserted at trace position 5 and the mark-sent
of reminder 3 occurs earlier. -/
theorem processDue_marks_sent_before_spawning_witness :
    ∃ i, i < 5 ∧ (processDueReminders sampleDispatch sampleNow
      sampleStore).trace.get? i = some (.sent 3) :=
  processDue_marks_sent_before_spawning sampleDispatch sampleNow sampleStore
    5 3 4 (by decide)

-- Preservation lemmas for the series invariant ----------------------------

theorem wf_updateWhere (c : Reminder → Bool) (f : Reminder → Reminder)
    (S : Store) (hid : ∀ x, (f x).id = x.id) (hwf : wfStore S = true) :
    wfStore (updateWhere c f S).1 = true
      ∧ (updateWhere c f S).1.nextId = S.nextId := by
  refine ⟨?_, rfl⟩
  unfold wfStore at hwf ⊢
  unfold updateWhere
  dsimp only
  simp only [Bool.and_eq_true, List.all_eq_true] at hwf ⊢
  obtain ⟨hb, hd⟩ := hwf
  have hgid : ∀ y : Reminder, ((if c y then f y else y).id = y.id) := by
    intro y
    by_cases hc : c y = true <;> simp [hc, hid y]
  constructor
  · intro x hx
    obtain ⟨y, hy, hgy⟩ := List.mem_map.mp hx
    rw [← hgy]
    simp only [decide_eq_true_eq] at *
    rw [hgid y]
    exact hb y hy
  · rw [distinctIds_iff] at hd ⊢
    apply hd.map
    intro a b hab
    rw [hgid a, hgid b]
    exact hab

theorem wf_createReminder (S : Store) (tg : Nat) (task : String)
    (sch : DateTime) (tz : String) (rec : Bool)
    (pat : Option RecurrencePattern) (mo : Option Nat) (ed : Option DateTime)
    (hwf : wfStore S = true) :
    wfStore (createReminder S tg task sch tz rec pat mo ed).1 = true
      ∧ (createReminder S tg task sch tz rec pat mo ed).1.nextId
        = S.nextId + 1 := by
  refine ⟨?_, rfl⟩
  unfold wfStore at hwf ⊢
  unfold createReminder
  dsimp only
  simp only [Bool.and_eq_true, List.all_eq_true] at hwf ⊢
  obtain ⟨hb, hd⟩ := hwf
  constructor
  · intro x hx
    rcases List.mem_append.mp hx with hold | hnew
    · have := hb x hold
      simp only [decide_eq_true_eq] at *
      omega
    · rw [List.mem_singleton] at hnew
      subst hnew
      simp
  · rw [distinctIds_iff] at hd ⊢
    rw [List.pairwise_append]
    refine ⟨hd, by simp, ?_⟩
    intro a ha b hb'
    rw [List.mem_singleton] at hb'
    subst hb'
    have := hb a ha
    simp only [decide_eq_true_eq] at this
    dsimp only
    omega

theorem wf_createNext (S : Store) (r : Reminder) (hwf : wfStore S = true) :
    wfStore (createNextRecurrence S r).1 = true
      ∧ S.nextId ≤ (createNextRecurrence S r).1.nextId := by
  unfold createNextRecurrence
  split
  · exact ⟨hwf, le_refl _⟩
  · split
    · exact ⟨hwf, le_refl _⟩
    · dsimp only
      split
      · exact ⟨hwf, le_refl _⟩
      · dsimp only
        constructor
        · refine (wf_updateWhere _ _ _ ?_ ((wf_updateWhere _ _ _ ?_
            ((wf_createReminder _ _ _ _ _ _ _ _ _ hwf).1)).1)).1 <;>
            exact fun x => rfl
        · show S.nextId ≤ S.nextId + 1
          omega

theorem wf_markSent (S : Store) (rid : Nat) (hwf : wfStore S = true) :
    wfStore (markReminderAsSent S rid).1 = true
      ∧ (markReminderAsSent S rid).1.nextId = S.nextId :=
  wf_updateWhere _ _ S (fun x => rfl) hwf

theorem wf_processOne (dispatch : Reminder → Bool) (acc : ProcResult)
    (r : Reminder) (hwf : wfStore acc.store = true) :
    wfStore (processOne dispatch acc r).store = true
      ∧ acc.store.nextId ≤ (processOne dispatch acc r).store.nextId := by
  unfold processOne
  by_cases hd : dispatch r = true
  · rw [if_pos hd]
    obtain ⟨hwf1, hn1⟩ := wf_markSent acc.store r.id hwf
    dsimp only
    split
    · split
      next heq =>
        obtain ⟨hwf2, hn2⟩ := wf_createNext (markReminderAsSent acc.store r.id).1 r hwf1
        rw [heq] at hwf2 hn2
        exact ⟨hwf2, by dsimp only at *; omega⟩
      next heq =>
        obtain ⟨hwf2, hn2⟩ := wf_createNext (markReminderAsSent acc.store r.id).1 r hwf1
        rw [heq] at hwf2 hn2
        exact ⟨hwf2, by dsimp only at *; omega⟩
    · refine ⟨hwf1, ?_⟩
      dsimp only
      omega
  · rw [if_neg hd]
    exact ⟨hwf, le_refl _⟩

theorem countParent_markSent (S : Store) (rid h : Nat) :
    countParent (markReminderAsSent S rid).1 h = countParent S h := by
  unfold countParent markReminderAsSent updateWhere
  dsimp only
  apply countP_map_pointwise
  intro r
  by_cases hc : (r.id == rid) = true <;> simp [hc]

theorem countParent_createNext (S : Store) (r : Reminder) (h : Nat)
    (hwf : wfStore S = true) :
    ((createNextRecurrence S r).2.1 = none → (createNextRecurrence S r).1 = S)
    ∧ (∀ nid, (createNextRecurrence S r).2.1 = some nid →
        countParent (createNextRecurrence S r).1 h
          = countParent S h + (if r.id = h then 1 else 0)) := by
  unfold createNextRecurrence
  split
  · exact ⟨fun _ => rfl, fun nid hnid => by simp at hnid⟩
  · split
    next => exact ⟨fun _ => rfl, fun nid hnid => by simp at hnid⟩
    next pat hpat =>
      dsimp only
      split
      · exact ⟨fun _ => rfl, fun nid hnid => by simp at hnid⟩
      · refine ⟨fun hcontra => by simp at hcontra, fun nid _ => ?_⟩
        unfold countParent createReminder updateWhere
        dsimp only
        rw [countP_map_pointwise _ _ _ (by
          intro x
          by_cases hc : (x.id == r.id) = true <;> simp [hc])]
        rw [List.map_append]
        have hbound : ∀ y ∈ S.rows, y.id < S.nextId := by
          unfold wfStore at hwf
          simp only [Bool.and_eq_true, List.all_eq_true,
            decide_eq_true_eq] at hwf
          exact hwf.1
        have hrowsid : S.rows.map (fun x =>
            if (x.id == S.nextId) = true then
              { x with
                parent_reminder_id := some r.id,
                occurrence_count := x.occurrence_count + 1,
                last_occurrence_at := some (calculateNextOccurrence
                  r.scheduled_at pat r.timezone) }
            else x) = S.rows := by
          have hpt : ∀ y ∈ S.rows, (if (y.id == S.nextId) = true then
              { y with
                parent_reminder_id := some r.id,
                occurrence_count := y.occurrence_count + 1,
                last_occurrence_at := some (calculateNextOccurrence
                  r.scheduled_at pat r.timezone) }
            else y) = y := by
            intro y hy
            rw [if_neg]
            simp only [beq_iff_eq]
            exact Nat.ne_of_lt (hbound y hy)
          rw [List.map_congr_left hpt, List.map_id']
        rw [hrowsid]
        rw [List.countP_append]
        simp only [List.map_cons, List.map_nil]
        rw [if_pos (by simp)]
        by_cases hrh : r.id = h <;> simp [List.countP_cons, hrh]

theorem quiet_updateWhere (c : Reminder → Bool) (f : Reminder → Reminder)
    (S : Store) (h : Nat)
    (hpres : ∀ x, (f x).id = x.id ∧ (f x).is_recurring = x.is_recurring
      ∧ (f x).recurrence_pattern = x.recurrence_pattern
      ∧ (x.is_sent = true → (f x).is_sent = true))
    (hq : quietAt S h) : quietAt (updateWhere c f S).1 h := by
  intro x hx hid
  unfold updateWhere at hx
  dsimp only at hx
  obtain ⟨y, hy, hgy⟩ := List.mem_map.mp hx
  obtain ⟨hid', hrec', hpat', hsent'⟩ := hpres y
  by_cases hc : c y = true
  · rw [if_pos hc] at hgy
    subst hgy
    rcases hq y hy (by rw [← hid']; exact hid) with hs | hr | hp
    · exact Or.inl (hsent' hs)
    · exact Or.inr (Or.inl (hrec'.trans hr))
    · exact Or.inr (Or.inr (hpat'.trans hp))
  · rw [if_neg hc] at hgy
    subst hgy
    exact hq y hy hid

theorem quiet_createNext (S : Store) (r : Reminder) (h : Nat)
    (hq : quietAt S h) : quietAt (createNextRecurrence S r).1 h := by
  unfold createNextRecurrence
  split
  · exact hq
  · split
    next => exact hq
    next pat hpat =>
      dsimp only
      split
      · exact hq
      · have h1 : quietAt (createReminder S r.telegram_id r.task_description
            (calculateNextOccurrence r.scheduled_at pat r.timezone) r.timezone
            false none none none).1 h := by
          intro x hx hid
          unfold createReminder at hx
          dsimp only at hx
          rcases List.mem_append.mp hx with hold | hnew
          · exact hq x hold hid
          · rw [List.mem_singleton] at hnew
            subst hnew
            exact Or.inr (Or.inl rfl)
        exact quiet_updateWhere _ _ _ h
          (fun x => ⟨rfl, rfl, rfl, fun hs => hs⟩)
          (quiet_updateWhere _ _ _ h
            (fun x => ⟨rfl, rfl, rfl, fun hs => hs⟩) h1)

theorem markSent_all_sent (S : Store) (rid : Nat) :
    ∀ x ∈ (markReminderAsSent S rid).1.rows, x.id = rid →
      x.is_sent = true := by
  intro x hx hid
  unfold markReminderAsSent updateWhere at hx
  dsimp only at hx
  obtain ⟨y, hy, hgy⟩ := List.mem_map.mp hx
  by_cases hc : (y.id == rid) = true
  · rw [if_pos hc] at hgy
    subst hgy
    rfl
  · rw [if_neg hc] at hgy
    subst hgy
    exact absurd (beq_iff_eq.mpr hid) (by exact hc)

theorem createNext_some_spawnable (S : Store) (r : Reminder) (nid : Nat)
    (hs : (createNextRecurrence S r).2.1 = some nid) :
    r.is_recurring = true ∧ r.recurrence_pattern.isSome = true := by
  unfold createNextRecurrence at hs
  split at hs
  · simp at hs
  · next hrec =>
    split at hs
    · simp at hs
    · next pat hpat =>
      constructor
      · simpa using hrec
      · rw [hpat]; rfl

theorem processOne_inv (dispatch : Reminder → Bool) (acc : ProcResult)
    (r : Reminder) (h : Nat)
    (hwf : wfStore acc.store = true)
    (hle : countParent acc.store h ≤ 1)
    (hquiet : countParent acc.store h = 1 → quietAt acc.store h)
    (hns : countParent acc.store h = 1 → r.id = h →
      r.is_recurring = false ∨ r.recurrence_pattern = none) :
    countParent (processOne dispatch acc r).store h ≤ 1
    ∧ (countParent (processOne dispatch acc r).store h = 1 →
        quietAt (processOne dispatch acc r).store h)
    ∧ (r.id ≠ h → countParent (processOne dispatch acc r).store h
        = countParent acc.store h) := by
  have hc1 : countParent (markReminderAsSent acc.store r.id).1 h
      = countParent acc.store h := countParent_markSent acc.store r.id h
  have hwf1 : wfStore (markReminderAsSent acc.store r.id).1 = true :=
    (wf_markSent acc.store r.id hwf).1
  have hqS1 : quietAt acc.store h →
      quietAt (markReminderAsSent acc.store r.id).1 h :=
    quiet_updateWhere _ _ _ h (fun x => ⟨rfl, rfl, rfl, fun _ => rfl⟩)
  unfold processOne
  by_cases hd : dispatch r = true
  · rw [if_pos hd]
    dsimp only
    split
    · split
      next S2 val ev heq =>
        dsimp only
        have hsome : (createNextRecurrence
            (markReminderAsSent acc.store r.id).1 r).2.1 = some val := by
          rw [heq]
        have hcc := (countParent_createNext
          (markReminderAsSent acc.store r.id).1 r h hwf1).2 val hsome
        have hS2 : (createNextRecurrence
            (markReminderAsSent acc.store r.id).1 r).1 = S2 := by rw [heq]
        rw [hS2] at hcc
        by_cases hrh : r.id = h
        · have hsp := createNext_some_spawnable
            (markReminderAsSent acc.store r.id).1 r val hsome
          have hcnt0 : countParent acc.store h = 0 := by
            rcases Nat.lt_or_ge (countParent acc.store h) 1 with hlt | hge
            · omega
            · have h1 : countParent acc.store h = 1 := by omega
              rcases hns h1 hrh with hnr | hnp
              · rw [hsp.1] at hnr
                exact absurd hnr (by simp)
              · rw [hnp] at hsp
                exact absurd hsp.2 (by simp)
          rw [if_pos hrh] at hcc
          refine ⟨by omega, ?_, fun hne => absurd hrh hne⟩
          intro _
          have hq1' : quietAt (markReminderAsSent acc.store r.id).1 h := by
            intro x hx hid
            refine Or.inl (markSent_all_sent acc.store r.id x hx ?_)
            rw [hrh]
            exact hid
          have hq2 := quiet_createNext (markReminderAsSent acc.store r.id).1
            r h hq1'
          rw [hS2] at hq2
          exact hq2
        · have heqc : countParent S2 h = countParent acc.store h := by
            rw [hcc, hc1]
            simp [hrh]
          refine ⟨by omega, fun he => ?_, fun _ => heqc⟩
          have hq' : quietAt acc.store h := hquiet (by omega)
          have hq2 := quiet_createNext (markReminderAsSent acc.store r.id).1
            r h (hqS1 hq')
          rw [hS2] at hq2
          exact hq2
      next S2 ev heq =>
        dsimp only
        have hnone : (createNextRecurrence
            (markReminderAsSent acc.store r.id).1 r).2.1 = none := by
          rw [heq]
        have hS2 : (createNextRecurrence
            (markReminderAsSent acc.store r.id).1 r).1 = S2 := by rw [heq]
        have hSS : S2 = (markReminderAsSent acc.store r.id).1 := by
          rw [← hS2]
          exact (countParent_createNext
            (markReminderAsSent acc.store r.id).1 r h hwf1).1 hnone
        rw [hSS]
        exact ⟨by omega, fun he => hqS1 (hquiet (by omega)), fun _ => hc1⟩
    · dsimp only
      exact ⟨by omega, fun he => hqS1 (hquiet (by omega)), fun _ => hc1⟩
  · rw [if_neg hd]
    dsimp only
    exact ⟨hle, hquiet, fun _ => rfl⟩

theorem processList_inv (dispatch : Reminder → Bool) (h : Nat)
    (L : List Reminder) :
    ∀ acc : ProcResult,
      wfStore acc.store = true →
      countParent acc.store h ≤ 1 →
      (countParent acc.store h = 1 → quietAt acc.store h) →
      (countParent acc.store h = 1 → ∀ r ∈ L, r.id = h →
        r.is_recurring = false ∨ r.recurrence_pattern = none) →
      L.Pairwise (fun a b => a.id ≠ b.id) →
      wfStore ((L.foldl (processOne dispatch) acc).store) = true
      ∧ countParent ((L.foldl (processOne dispatch) acc).store) h ≤ 1
      ∧ (countParent ((L.foldl (processOne dispatch) acc).store) h = 1 →
          quietAt ((L.foldl (processOne dispatch) acc).store) h) := by
  induction L with
  | nil => intro acc hwf hle hquiet _ _; exact ⟨hwf, hle, hquiet⟩
  | cons r t ih =>
    intro acc hwf hle hquiet hns hpair
    rw [List.foldl_cons]
    obtain ⟨hpr, hpt⟩ := List.pairwise_cons.mp hpair
    obtain ⟨hle', hquiet', heqne⟩ := processOne_inv dispatch acc r h hwf hle
      hquiet (fun h1 hrh => hns h1 r (List.mem_cons_self r t) hrh)
    apply ih (processOne dispatch acc r)
      (wf_processOne dispatch acc r hwf).1 hle' hquiet' ?_ hpt
    intro h1 r' hr' hid
    by_cases hrh : r.id = h
    · exact absurd (show r.id = r'.id by rw [hrh, hid]) (hpr r' hr')
    · exact hns (by rw [← heqne hrh]; exact h1) r'
        (List.mem_cons_of_mem r hr') hid

theorem processDue_inv (dispatch : Reminder → Bool) (now : DateTime)
    (S : Store) (h : Nat) (hwf : wfStore S = true)
    (hle : countParent S h ≤ 1)
    (hquiet : countParent S h = 1 → quietAt S h) :
    wfStore (processDueReminders dispatch now S).store = true
    ∧ countParent (processDueReminders dispatch now S).store h ≤ 1
    ∧ (countParent (processDueReminders dispatch now S).store h = 1 →
        quietAt (processDueReminders dispatch now S).store h) := by
  unfold processDueReminders
  apply processList_inv dispatch h (getDueReminders now S)
    { store := S, sent := 0, failed := 0, recurringCreated := 0, trace := [] }
    hwf hle hquiet
  · intro h1 r hr hid
    have hrfil : r ∈ S.rows.filter (dueBefore now) :=
      (List.perm_insertionSort _ _).mem_iff.mp hr
    have hrdue : dueBefore now r = true := (List.mem_filter.mp hrfil).2
    have hrS : r ∈ S.rows := (List.mem_filter.mp hrfil).1
    have hrsent : r.is_sent = false := by
      unfold dueBefore at hrdue
      simp only [Bool.and_eq_true, Bool.not_eq_true'] at hrdue
      exact hrdue.1.2
    rcases hquiet h1 r hrS hid with hs | hnr | hnp
    · rw [hrsent] at hs
      exact absurd hs (by simp)
    · exact Or.inl hnr
    · exact Or.inr hnp
  · exact getDue_pairwise_ids now S hwf

theorem lifetime_inv (steps : List ((Reminder → Bool) × DateTime)) :
    ∀ (S : Store) (h : Nat), wfStore S = true → countParent S h ≤ 1 →
      (countParent S h = 1 → quietAt S h) →
      countParent (lifetime steps S) h ≤ 1 := by
  induction steps with
  | nil => intro S h _ hle _; exact hle
  | cons p t ih =>
    intro S h hwf hle hquiet
    have hstep : lifetime (p :: t) S
        = lifetime t ((processDueReminders p.1 p.2 S).store) := rfl
    rw [hstep]
    obtain ⟨hwf', hle', hq'⟩ := processDue_inv p.1 p.2 S h hwf hle hquiet
    exact ih _ h hwf' hle' hq'

theorem createNext_successor_fields (S : Store) (r : Reminder) (S' : Store)
    (nid : Nat) (ev : List StoreEvent) (hwf : wfStore S = true)
    (heq : createNextRecurrence S r = (S', some nid, ev)) :
    ∀ x ∈ S'.rows, x.id = nid →
      x.is_recurring = false ∧ x.recurrence_pattern = none
        ∧ x.parent_reminder_id = some r.id := by
  unfold createNextRecurrence at heq
  split at heq
  · simp at heq
  · split at heq
    next => simp at heq
    next pat hpat =>
      dsimp only at heq
      split at heq
      · simp at heq
      · simp only [Prod.mk.injEq, Option.some.injEq] at heq
        obtain ⟨hS3, hnid, hev⟩ := heq
        intro x hx hid
        rw [← hS3] at hx
        unfold updateWhere createReminder at hx
        dsimp only at hx
        rw [List.map_map] at hx
        obtain ⟨y, hy, hgy⟩ := List.mem_map.mp hx
        have hbound : ∀ z ∈ S.rows, z.id < S.nextId := by
          unfold wfStore at hwf
          simp only [Bool.and_eq_true, List.all_eq_true,
            decide_eq_true_eq] at hwf
          exact hwf.1
        rcases List.mem_append.mp hy with hyold | hynew
        · exfalso
          have hxy : x.id = y.id := by
            rw [← hgy]
            simp only [Function.comp]
            by_cases hc1 : (y.id == S.nextId) = true <;>
              by_cases hc2 : (y.id == r.id) = true <;> simp [hc1, hc2]
          have := hbound y hyold
          rw [← hxy, hid, ← hnid] at this
          exact lt_irrefl _ this
        · rw [List.mem_singleton] at hynew
          subst hynew
          rw [← hgy]
          simp only [Function.comp]
          by_cases hc2 : (S.nextId == r.id) = true <;> simp [hc2]

/-- Claim C9: every successor row created by `createNextRecurrence` is
created non-recurring and without a recurrence pattern (and linked to its
head via `parent_reminder_id`); consequently, over any whole lifetime of
scheduler ticks (`processDueReminders` invocations with arbitrary dispatch
outcomes and clock readings) starting from a well-formed store in which no
row is yet linked to head `h`, at most one generated successor of `h` ever
exists. -/
theorem recurrence_spawns_at_most_one_successor :
    (∀ (S : Store) (r : Reminder) (S' : Store) (nid : Nat)
        (ev : List StoreEvent), wfStore S = true →
        createNextRecurrence S r = (S', some nid, ev) →
        ∀ x ∈ S'.rows, x.id = nid →
          x.is_recurring = false ∧ x.recurrence_pattern = none
            ∧ x.parent_reminder_id = some r.id)
    ∧ (∀ (steps : List ((Reminder → Bool) × DateTime)) (S : Store) (h : Nat),
        wfStore S = true → countParent S h = 0 →
        countParent (lifetime steps S) h ≤ 1) := by
  constructor
  · exact createNext_successor_fields
  · intro steps S h hwf hc0
    exact lifetime_inv steps S h hwf (by omega)
      (fun h1 => absurd (hc0.symm.trans h1) (by decide))

/-- Witness for `recurrence_spawns_at_most_one_successor`: over three
scheduler ticks on the fixture store, head 3 acquires at most one linked
successor. -/
theorem recurrence_spawns_at_most_one_successor_witness :
    countParent (lifetime [(sampleDispatch, sampleNow),
      (fun _ => true, ⟨2024, 2, 1, 0⟩), (fun _ => true, ⟨2024, 3, 1, 0⟩)]
      sampleStore) 3 ≤ 1 :=
  recurrence_spawns_at_most_one_successor.2
    [(sampleDispatch, sampleNow), (fun _ => true, ⟨2024, 2, 1, 0⟩),
     (fun _ => true, ⟨2024, 3, 1, 0⟩)] sampleStore 3 (by decide) (by decide)

/-- Claim C3: `parseReminderText` returns null whenever the first resolved
instant is at or before the reference instant and the request is not
recurring; recurring requests are exempt (they never yield null, whatever
the resolver returns); and in particular "follow up 5 days ago" — a
non-recurring phrase whose resolved instant is at or before any reference
instant — parses to null. -/
theorem parseReminderText_past_rejection :
    (∀ (resolve : List Char → List ChronoResult) (text : String)
        (ref : DateTime) (r : ChronoResult) (rest : List ChronoResult),
        parseRecurrencePatternL (cleanTextOf text.toList) = none →
        resolve (cleanTextOf text.toList) = r :: rest →
        r.date.toLin ≤ ref.toLin →
        parseReminderText resolve text ref = none)
    ∧ (∀ (resolve : List Char → List ChronoResult) (text : String)
        (ref : DateTime) (p : RecurrencePattern),
        parseRecurrencePatternL (cleanTextOf text.toList) = some p →
        parseReminderText resolve text ref ≠ none)
    ∧ (∀ (resolve : List Char → List ChronoResult) (ref : DateTime),
        (∀ (r : ChronoResult) (rest : List ChronoResult),
          resolve ("follow up 5 days ago".toList) = r :: rest →
          r.date.toLin ≤ ref.toLin) →
        parseReminderText resolve "follow up 5 days ago" ref = none) := by
  have part1 : ∀ (resolve : List Char → List ChronoResult) (text : String)
      (ref : DateTime) (r : ChronoResult) (rest : List ChronoResult),
      parseRecurrencePatternL (cleanTextOf text.toList) = none →
      resolve (cleanTextOf text.toList) = r :: rest →
      r.date.toLin ≤ ref.toLin →
      parseReminderText resolve text ref = none := by
    intro resolve text ref r rest hpat hres hle
    unfold parseReminderText
    dsimp only
    rw [hpat]
    simp only [Option.isSome_none]
    rw [show textForDateParsingOf (cleanTextOf text.toList) false
      = cleanTextOf text.toList from rfl]
    rw [hres]
    dsimp only
    rw [if_pos]
    simp only [Bool.not_false, Bool.true_and, decide_eq_true_eq]
    exact hle
  refine ⟨part1, ?_, ?_⟩
  · intro resolve text ref p hpat hcontra
    unfold parseReminderText at hcontra
    dsimp only at hcontra
    rw [hpat] at hcontra
    simp only [Option.isSome_some] at hcontra
    cases hres : resolve (textForDateParsingOf (cleanTextOf text.toList) true)
    case nil =>
      rw [hres] at hcontra
      simp at hcontra
    case cons r rest =>
      rw [hres] at hcontra
      dsimp only at hcontra
      simp at hcontra
  · intro resolve ref hres
    have hpat : parseRecurrencePatternL
        (cleanTextOf ("follow up 5 days ago".toList)) = none := by decide
    have hclean : cleanTextOf ("follow up 5 days ago".toList)
        = "follow up 5 days ago".toList := by decide
    cases hr : resolve ("follow up 5 days ago".toList)
    case nil =>
      unfold parseReminderText
      dsimp only
      rw [hpat]
      simp only [Option.isSome_none]
      rw [show textForDateParsingOf
        (cleanTextOf (String.toList "follow up 5 days ago")) false
        = cleanTextOf (String.toList "follow up 5 days ago") from rfl]
      rw [hclean, hr]
      rfl
    case cons r rest =>
      exact part1 resolve "follow up 5 days ago" ref r rest hpat
        (by rw [hclean]; exact hr) (hres r rest hr)

/-- Witness for `parseReminderText_past_rejection`: a resolver that resolves
everything to a past instant makes "follow up 5 days ago" parse to null,
while the recurring "drink water daily" still parses. -/
theorem parseReminderText_past_rejection_witness :
    parseReminderText pastResolve "follow up 5 days ago" ⟨2024, 6, 1, 0⟩ = none
      ∧ parseReminderText pastResolve "drink water daily" ⟨2024, 6, 1, 0⟩
        ≠ none :=
  ⟨parseReminderText_past_rejection.2.2 pastResolve ⟨2024, 6, 1, 0⟩
      (fun r rest h => by
        injection h with h1 h2
        rw [← h1]
        decide),
    parseReminderText_past_rejection.2.1 pastResolve "drink water daily"
      ⟨2024, 6, 1, 0⟩ ⟨"interval", 1, .days⟩ (by decide)⟩
